import Mathlib

/-!
# Verification of the CbCR extractor's rule-resolution engine and heuristic classifier

Shallow embedding of the repository's two source modules:

* `src/extraction/rules.py` — the `Rules` class: rule-book loading, scoped rule
  resolution (merging global / company / company-year scopes), strict and regex
  sink lookups, rule mutation, standard-column aggregation, justification export.
* `src/utils.py` — text cleaning (`neatify`), jurisdiction normalization,
  fuzzy country matching, country/term counting and the table-orientation
  classifier.

Python dictionaries are embedded as insertion-ordered association lists
(`List (String × Json)`); Python exceptions as an explicit `Except` over a small
exception type.  External collaborators (the `re`, `pycountry` and `pandas`
libraries, and the reference data files loaded at module start) are modelled by
explicit parameters and by small faithful fragments, each marked in its doc
comment.
-/

set_option autoImplicit false

namespace CbCR

/-- Python exceptions that the embedded code can raise or propagate. -/
inductive PyExc where
  | keyError
  | typeError
  | valueError
  | lookupError
  | jsonDecodeError
  | rulesFileNotFound
  | rulesMalformed
  deriving Repr, DecidableEq

/-- The two constructors of `RulesError` raised by `Rules.__init__`. -/
def PyExc.isRulesError : PyExc → Bool
  | .rulesFileNotFound => true
  | .rulesMalformed => true
  | _ => false

/-- JSON values as they occur in rule books: strings at the leaves and
insertion-ordered objects (Python `dict`s) at the nodes.  Rule books contain no
arrays or numbers, so those constructors are omitted. -/
inductive Json where
  | str (s : String)
  | obj (fields : List (String × Json))

/-- Python `d[k]` on our values: key lookup on a dict (raising `KeyError` when
the key is absent), `TypeError` when subscripting a string with a string key. -/
def Json.getItem : Json → String → Except PyExc Json
  | .str _, _ => .error .typeError
  | .obj fs, k =>
    match List.lookup k fs with
    | some v => .ok v
    | none => .error .keyError

/-- Python dict item assignment `d[k] = v` on the underlying association list:
overwrite the value in place when the key is present (keeping its position),
append a new entry otherwise. -/
def dictInsert {α : Type} (d : List (String × α)) (k : String) (v : α) :
    List (String × α) :=
  if (List.lookup k d).isSome then
    d.map (fun p => if p.1 = k then (k, v) else p)
  else
    d ++ [(k, v)]

/-- Python `d[k] = v` on our values: functional update of a dict (in-place item
assignment), `TypeError` on a string. -/
def Json.setItem : Json → String → Json → Except PyExc Json
  | .str _, _, _ => .error .typeError
  | .obj fs, k, v => .ok (.obj (dictInsert fs k v))

/-- Python `{**a, **b}`: start from `a` and assign every entry of `b` in order,
so keys keep their first-occurrence position and later values override. -/
def dictMerge {α : Type} (a b : List (String × α)) : List (String × α) :=
  b.foldl (fun acc p => dictInsert acc p.1 p.2) a

/-- Python `dict(pairs)`: build a dict by assigning the pairs in order
(duplicate keys: the last value wins, the first position is kept). -/
def dictFromPairs {α : Type} (l : List (String × α)) : List (String × α) :=
  l.foldl (fun acc p => dictInsert acc p.1 p.2) []

/-- The external `CbCReport` collaborator: the fields of it that `rules.py`
and `utils.py` read. -/
structure CbCReport where
  group_name : String
  end_of_year : String
  min_nb_jurs_per_table : Nat
  min_nb_cols : Nat

/-! ## The regex-marker convention

`Rules.__get_rules` classifies a merged source key with
`re.search(r"_regex_(.*)", key)`: the search succeeds exactly when the literal
marker `_regex_` occurs somewhere in the key, at which point `group(1)` is the
text following the first (leftmost) occurrence of the marker, truncated at the
first newline (`.` does not match a newline). -/

/-- The text following the first (leftmost) occurrence of `pat` in `s`, or
`none` when `pat` does not occur in `s`. -/
def afterFirst (pat : List Char) : List Char → Option (List Char)
  | [] => if pat.isPrefixOf ([] : List Char) then some [] else none
  | c :: rest =>
    if pat.isPrefixOf (c :: rest) then some ((c :: rest).drop pat.length)
    else afterFirst pat rest

/-- The marker substring that tags a source key as a regex rule. -/
def regexMarker : List Char := "_regex_".data

/-- Whether `re.search(r"_regex_(.*)", k)` succeeds: the marker occurs in `k`. -/
def hasMarker (k : String) : Bool := (afterFirst regexMarker k.data).isSome

/-- `re.search(r"_regex_(.*)", k).group(1)`: the text after the first marker
occurrence, truncated at the first newline (Python's `.` stops there).  Returns
`""` when the marker is absent (in the source this path is never taken: the
partition guarantees the search succeeded). -/
def stripMarker (k : String) : String :=
  match afterFirst regexMarker k.data with
  | some rest => String.mk (rest.takeWhile (fun c => c ≠ '\n'))
  | none => ""

/-- The value reduction inside `Rules.__get_rules`:
`if isinstance(v, dict): rules_in_effect[k] = v["sink"]` — a dict value is
replaced by its `"sink"` entry (`KeyError` when absent), a string value is kept
unchanged. -/
def reduceSink : Json → Except PyExc Json
  | .str s => .ok (.str s)
  | .obj fs =>
    match List.lookup "sink" fs with
    | some v => .ok v
    | none => .error .keyError

/-- The in-place value-reduction loop over the merged mapping, in order. -/
def reduceAll : List (String × Json) → Except PyExc (List (String × Json))
  | [] => .ok []
  | (k, v) :: rest =>
    match reduceSink v with
    | .error e => .error e
    | .ok v' =>
      match reduceAll rest with
      | .error e => .error e
      | .ok rest' => .ok ((k, v') :: rest')

/-- `dict(strict)`: the unmarked entries of the merged mapping, in order. -/
def strictPart (l : List (String × Json)) : List (String × Json) :=
  dictFromPairs (l.filter (fun p => ¬ hasMarker p.1))

/-- `regex_dict`: the marked entries of the merged mapping, each key replaced
by `group(1)` of the marker search, assembled with `dict(...)` (so on stripped
keys that collide the last value wins). -/
def regexDictOf (l : List (String × Json)) : List (String × Json) :=
  dictFromPairs ((l.filter (fun p => hasMarker p.1)).map
    (fun p => (stripMarker p.1, p.2)))

/-! ## The `Rules` class -/

/-- The `Rules` object: `_all` is the parsed top-level JSON document (a dict),
`_column` and `_jurisdiction` are the values stored at its `column_rules` and
`jurisdiction_rules` keys at construction time. -/
structure Rules where
  all : List (String × Json)
  column : Json
  jurisdiction : Json

/-- The possible outcomes of evaluating the constructor's argument, which
Python resolves outside the program text: the argument either parses as inline
JSON, or fails to parse and is opened as a file path (which may be missing, or
hold a document, or hold text that is not JSON). -/
inductive RulesSource where
  | inline (doc : Json)
  | file (doc : Json)
  | fileNotJson
  | notFound

/-- `Rules.__init__` after the JSON text has been parsed: subscript the
document with both axis keys; a missing key raises `KeyError`, converted to
`RulesError("Rules file malformed")`; subscripting a non-dict document raises
an uncaught `TypeError`. -/
def rulesOfDoc : Json → Except PyExc Rules
  | .str _ => .error .typeError
  | .obj fs =>
    match List.lookup "column_rules" fs with
    | none => .error .rulesMalformed
    | some col =>
      match List.lookup "jurisdiction_rules" fs with
      | none => .error .rulesMalformed
      | some jur => .ok ⟨fs, col, jur⟩

/-- `Rules.__init__`: parse the argument as inline JSON, else open it as a
path; `FileNotFoundError` becomes `RulesError("Rules file not found")`, a
`KeyError` for a missing axis key becomes `RulesError("Rules file malformed")`,
and a `JSONDecodeError` from the opened file propagates uncaught. -/
def rulesInit : RulesSource → Except PyExc Rules
  | .inline doc => rulesOfDoc doc
  | .file doc => rulesOfDoc doc
  | .fileNotJson => .error .jsonDecodeError
  | .notFound => .error .rulesFileNotFound

/-- `try: ... except KeyError: <dflt>` around a scope lookup chain. -/
def tryKeyErr (x : Except PyExc Json) (dflt : Json) : Except PyExc Json :=
  match x with
  | .error .keyError => .ok dflt
  | other => other

/-- `try: rule_book[k1][k2] except KeyError: dict()` — the company-year and
company-default scope gathering of `__get_rules` (a `TypeError` from
subscripting a string value propagates uncaught). -/
def scopeLookup (rule_book : Json) (k1 k2 : String) : Except PyExc Json :=
  tryKeyErr (do let c ← rule_book.getItem k1; c.getItem k2) (.obj [])

/-- `{**x}` unpacking requires a mapping: yields the entry list of a dict and
raises `TypeError` on a string. -/
def asObj : Json → Except PyExc (List (String × Json))
  | .obj fs => .ok fs
  | .str _ => .error .typeError

/-- `Rules.__get_rules(col_or_jur, strict_or_regex, report)`: select the axis
tree, gather the global-default scope (a missing `default` key raises an
uncaught `KeyError`), the company-year and company-default scopes (their
`KeyError`s fall back to `dict()`), merge with `{**default, **mne, **year}`,
reduce dict values to their `sink`, partition by the regex marker and return
the requested partition.  Every exception inside the merge block is converted
to `ValueError("Couldn't unify MNC rules. Fix 'rules.json'.")`. -/
def getRules (r : Rules) (col_or_jur strict_or_regex : String)
    (report : CbCReport) : Except PyExc (List (String × Json)) := do
  let rule_book := if col_or_jur = "c" then r.column else r.jurisdiction
  let mnc := report.group_name
  let year := report.end_of_year
  let default_all_files_rules ← rule_book.getItem "default"
  let year_rules ← scopeLookup rule_book mnc year
  let mne_rules ← scopeLookup rule_book mnc "default"
  let inner : Except PyExc (List (String × Json)) := do
    let dfs ← asObj default_all_files_rules
    let mne ← asObj mne_rules
    let yr ← asObj year_rules
    let rules_in_effect := dictMerge (dictMerge dfs mne) yr
    let reduced ← reduceAll rules_in_effect
    if strict_or_regex = "s" then pure (strictPart reduced)
    else pure (regexDictOf reduced)
  match inner with
  | .error _ => .error .valueError
  | .ok v => .ok v

/-- `Rules.get_sink_from_strict`: `.get(source)` on the strict mapping, with
`try ... except KeyError: return None` around the whole call (catching the
`KeyError` of a missing global `default` scope). -/
def get_sink_from_strict (r : Rules) (report : CbCReport) (source : String)
    (col_or_jur : String) : Except PyExc (Option Json) :=
  match getRules r col_or_jur "s" report with
  | .ok rules => .ok (List.lookup source rules)
  | .error .keyError => .ok none
  | .error e => .error e

/-- Modelled fragment of Python `re.match(pattern, s)` for the pattern shapes
the rule books exercise: an optional leading start anchor followed by literal
characters, matched at the start of `s` without requiring a full match. -/
def reMatch (pattern s : String) : Bool :=
  let body := if "^".data.isPrefixOf pattern.data then pattern.data.drop 1
              else pattern.data
  body.isPrefixOf s.data

/-- The loop of `Rules.get_sink_from_regex`: return the sink of the first
entry whose pattern matches `source`, `None` when none does. -/
def findFirstMatch : List (String × Json) → String → Option Json
  | [], _ => none
  | (pat, sink) :: rest, source =>
    if reMatch pat source then some sink else findFirstMatch rest source

/-- `Rules.get_sink_from_regex`: iterate the resolved regex mapping in order
and return the first matching entry's sink (no exception handler here: errors
from `__get_rules` propagate). -/
def get_sink_from_regex (r : Rules) (report : CbCReport) (source : String)
    (col_or_jur : String) : Except PyExc (Option Json) :=
  match getRules r col_or_jur "r" report with
  | .ok rules => .ok (findFirstMatch rules source)
  | .error e => .error e

/-- The rule payload written by `Rules.write_new_rule`:
`pair = {"sink": sink, "justification": justification}`. -/
def rulePair (sink justification : String) : Json :=
  .obj [("sink", .str sink), ("justification", .str justification)]

/-- `rule_set[company][year][source] = pair` evaluated left to right, the
functional image of the in-place nested mutation. -/
def setNested2 (rule_set : Json) (k1 k2 source : String) (pair : Json) :
    Except PyExc Json := do
  let c ← rule_set.getItem k1
  let y ← c.getItem k2
  let y' ← y.setItem source pair
  let c' ← c.setItem k2 y'
  rule_set.setItem k1 c'

/-- `rule_set[company][k2] = v` evaluated left to right. -/
def setNested1 (rule_set : Json) (k1 k2 : String) (v : Json) :
    Except PyExc Json := do
  let c ← rule_set.getItem k1
  let c' ← c.setItem k2 v
  rule_set.setItem k1 c'

/-- `try: <attempt> except KeyError: <fallback>` for the nested-write ladders
of `write_new_rule`: only `KeyError` is caught, other exceptions propagate. -/
def tryKeyErrWith (x : Except PyExc Json) (fallback : Except PyExc Json) :
    Except PyExc Json :=
  match x with
  | .error .keyError => fallback
  | other => other

/-- The mutation's effect on the whole object: `rule_set` is an alias of
`self._column` (resp. `self._jurisdiction`), itself an alias of the matching
entry of `self._all`, so updating the selected axis tree updates both the
field and the top-level document. -/
def setAxis (r : Rules) (col_or_jur : String) (updated : Json) : Rules :=
  if col_or_jur = "c" then
    ⟨dictInsert r.all "column_rules" updated, updated, r.jurisdiction⟩
  else
    ⟨dictInsert r.all "jurisdiction_rules" updated, r.column, updated⟩

/-- `Rules.write_new_rule(source, mode, sink, justification, col_or_jur,
report)`: write `{"sink": sink, "justification": justification}` under the
global-default scope (`mode == "!"`), the company-default scope (`"#"`) or the
company-year scope (`"."`), creating missing company / sub-scope dicts via the
`KeyError` fallback ladders.  Because `self._column` and `self._jurisdiction`
alias entries of `self._all`, the update is mirrored into `all`.  A mode other
than the three sentinels writes nothing. -/
def write_new_rule (r : Rules) (source mode sink justification : String)
    (col_or_jur : String) (report : CbCReport) : Except PyExc Rules := do
  let rule_set := if col_or_jur = "c" then r.column else r.jurisdiction
  let company := report.group_name
  let year := report.end_of_year
  let pair := rulePair sink justification
  let newSet : Except PyExc Json :=
    if mode = "!" then
      setNested1 rule_set "default" source pair
    else if mode = "#" then
      tryKeyErrWith (setNested2 rule_set company "default" source pair)
        (tryKeyErrWith (setNested1 rule_set company "default"
            (.obj [(source, pair)]))
          (rule_set.setItem company (.obj [("default", .obj [(source, pair)])])))
    else if mode = "." then
      tryKeyErrWith (setNested2 rule_set company year source pair)
        (tryKeyErrWith (setNested1 rule_set company year (.obj [(source, pair)]))
          (rule_set.setItem company (.obj [(year, .obj [(source, pair)])])))
    else
      .ok rule_set
  let updated ← newSet
  .ok (setAxis r col_or_jur updated)

/-- A `write_new_rule` call followed immediately by a `get_sink_from_strict`
for the same report, source and axis on the resulting object — the round trip
of the mutation claim (a failing write propagates its exception). -/
def writeThenGet (r : Rules) (report : CbCReport)
    (source mode sink justification ax : String) :
    Except PyExc (Option Json) :=
  match write_new_rule r source mode sink justification ax report with
  | .ok r' => get_sink_from_strict r' report source ax
  | .error e => .error e

/-- The recursive collector inside `Rules.get_std_colnames_from_rules`:
descend into dict values, and collect every non-dict value whose key is not
literally `justification`, `comment` or `note`. -/
def iterate_multidimensional : List (String × Json) → List Json
  | [] => []
  | (_, Json.obj sub) :: rest =>
    iterate_multidimensional sub ++ iterate_multidimensional rest
  | (k, Json.str s) :: rest =>
    (if k ∈ ["justification", "comment", "note"] then []
     else [Json.str s]) ++ iterate_multidimensional rest

/-- The fixed canonical baseline vocabulary (`IRS_columns`). -/
def IRS_columns : List String :=
  ["unrelated_revenues", "related_revenues", "total_revenues",
   "profit_before_tax", "tax_paid", "tax_accrued", "stated_capital",
   "accumulated_earnings", "employees", "tangible_assets"]

/-- The string payloads of a list of leaf values (collected sinks are strings
in conforming rule books; dict-shaped strays cannot occur among collected
leaves by construction of the collector). -/
def leafStrings (l : List Json) : List String :=
  l.foldr (fun j acc => match j with | .str s => s :: acc | .obj _ => acc) []

/-- `Rules.get_std_colnames_from_rules`: the set union of the baseline
vocabulary and every collected leaf of the column tree, minus the `to_drop`
sentinel, sorted.  Python's `set` plus `list.sort()` is embedded as
deduplication followed by an ascending merge sort. -/
def get_std_colnames_from_rules (r : Rules) : List String :=
  let collected :=
    match r.column with
    | .obj fs => leafStrings (iterate_multidimensional fs)
    | .str _ => []
  let temp := (IRS_columns ++ collected).dedup.filter (fun s => s ≠ "to_drop")
  temp.mergeSort (fun a b => a ≤ b)

/-- The f-string of `extract_objects` at depth 3, given the traversed path and
the entry's `sink` and `justification` payloads (strings in conforming books):
the comma-joined path, the sink, and the double-quoted justification. -/
def csvRecord (path : List String) (sink justification : String) : String :=
  String.intercalate "," path ++ "," ++ sink ++ ",\"" ++ justification ++ "\""

/-- Rendering a Json value inside the f-string.  Conforming rule books only
ever render string payloads here, which Python interpolates verbatim; the dict
case stands in for Python's dict repr and is never hit on conforming books. -/
def pyStr : Json → String
  | .str s => s
  | .obj _ => "{...}"

/-- `extract_objects(json_obj, keys, level)` over the fields of a dict: at
`level == 3` a dict value emits one record built from its `sink` and
`justification` entries (a missing key raises `KeyError`); at other levels a
dict value is recursed into with its key appended to the path; string values
produce nothing. -/
def extractFields : List (String × Json) → List String → Nat →
    Except PyExc (List String)
  | [], _, _ => .ok []
  | (_, Json.str _) :: rest, keys, level => extractFields rest keys level
  | (key, Json.obj vf) :: rest, keys, level =>
    if level = 3 then do
      let sink ← (Json.obj vf).getItem "sink"
      let just ← (Json.obj vf).getItem "justification"
      let tail ← extractFields rest keys level
      .ok (csvRecord (keys ++ [key]) (pyStr sink) (pyStr just) :: tail)
    else do
      let sub ← extractFields vf (keys ++ [key]) (level + 1)
      let tail ← extractFields rest keys level
      .ok (sub ++ tail)

/-- The CSV header line written by `export_justifications_to_csv`. -/
def csvHeader : String :=
  "type_of_rule, mnc, report_end_of_year, column_name_found, column_name_assigned, justification\n"

/-- `Rules.export_justifications_to_csv`: the text written to the file —
the header followed by the newline-joined records of
`extract_objects(self._all)`. -/
def export_justifications (r : Rules) : Except PyExc String := do
  let recs ← extractFields r.all [] 0
  .ok (csvHeader ++ String.intercalate "\n" recs)

/-! ## Conforming rule books for the export claim

The data model's invariant shape (axis tree → company-or-default →
year-or-default → source key → RuleEntry) as an explicit builder, used to
state which leaves the export emits. -/

/-- A leaf RuleEntry. -/
structure RuleLeaf where
  sink : String
  justification : String

/-- The JSON form of a leaf RuleEntry. -/
def leafJson (e : RuleLeaf) : Json :=
  .obj [("sink", .str e.sink), ("justification", .str e.justification)]

/-- A source-key-to-RuleEntry mapping as JSON. -/
def ruleMapJson (rules : List (String × RuleLeaf)) : Json :=
  .obj (rules.map (fun p => (p.1, leafJson p.2)))

/-- One axis tree of a conforming book: the mandatory global `default` scope
of RuleEntries, plus company scopes each holding sub-scopes (`default` or
year) of RuleEntries. -/
structure AxisData where
  defaultRules : List (String × RuleLeaf)
  companies : List (String × List (String × List (String × RuleLeaf)))

/-- The JSON form of one axis tree. -/
def axisJson (a : AxisData) : Json :=
  .obj (("default", ruleMapJson a.defaultRules) ::
    a.companies.map (fun c =>
      (c.1, .obj (c.2.map (fun sc => (sc.1, ruleMapJson sc.2))))))

/-- The top-level document of a conforming book (one entry per axis). -/
def conformingBook (axes : List (String × AxisData)) : List (String × Json) :=
  axes.map (fun ax => (ax.1, axisJson ax.2))

/-- The CSV records of every RuleEntry stored under a company sub-scope, in
traversal order; RuleEntries of the global `default` scopes contribute
nothing. -/
def companyRecords (axes : List (String × AxisData)) : List String :=
  axes.flatMap (fun ax =>
    ax.2.companies.flatMap (fun c =>
      c.2.flatMap (fun sc =>
        sc.2.map (fun p =>
          csvRecord [ax.1, c.1, sc.1, p.1] p.2.sink p.2.justification))))

/-- Builder data for the concrete counterexample book: one RuleEntry directly
under the column axis's global `default` scope, one under a company
sub-scope. -/
def axesC4 : List (String × AxisData) :=
  [("column_rules",
    ⟨[("gkey", ⟨"s1", "j1"⟩)],
      [("Comp", [("default", [("csrc", ⟨"s2", "j2"⟩)])])]⟩),
   ("jurisdiction_rules", ⟨[], []⟩)]

/-- A concrete conforming book with one RuleEntry directly under the global
`default` scope of the column axis and one under a company sub-scope. -/
def egAllC4 : List (String × Json) :=
  [("column_rules", .obj [
      ("default", .obj [("gkey", leafJson ⟨"s1", "j1"⟩)]),
      ("Comp", .obj [("default", .obj [("csrc", leafJson ⟨"s2", "j2"⟩)])])]),
   ("jurisdiction_rules", .obj [("default", .obj [])])]

/-! ## `utils.py`: text cleaning -/

/-- The character class kept by `CHARS_TO_PURGE_FROM_COLUMN_NAMES_RE`
(`[^a-zA-Z ']` is replaced by a space, so letters, the space and the
apostrophe survive). -/
def keptChar (c : Char) : Bool :=
  ('a' ≤ c && c ≤ 'z') || ('A' ≤ c && c ≤ 'Z') || c = ' ' || c = '\''

/-- Whether the tail after a matched leading space completes a match of
`STAND_ALONE_CHAR_RE`, i.e. of `(\s\S\s*$)|(\smn\s*$)`: one non-space
character followed only by spaces, or `mn` followed only by spaces.  After the
purge pass the only whitespace character left is the space, so `\s` is `' '`
here. -/
def standAloneTail (s : List Char) : Bool :=
  match s with
  | [] => false
  | x :: rest =>
    (x ≠ ' ' && rest.all (fun c => c = ' ')) ||
    (x = 'm' && match rest with
                | 'n' :: r2 => r2.all (fun c => c = ' ')
                | _ => false)

/-- `STAND_ALONE_CHAR_RE.sub(" ", s)`: replace the leftmost match of
`(\s\S\s*$)|(\smn\s*$)` — which necessarily extends to the end of the
string — by a single space. -/
def standAloneSub : List Char → List Char
  | [] => []
  | c :: rest =>
    if c = ' ' && standAloneTail rest then [' ']
    else c :: standAloneSub rest

/-- Python `str.upper()` (character-wise ASCII upper-casing). -/
def pyUpper (s : String) : String := String.mk (s.data.map Char.toUpper)

/-- Python `str.lower()` (character-wise ASCII lower-casing). -/
def pyLower (s : String) : String := String.mk (s.data.map Char.toLower)

/-- Python `str.strip()`: drop leading and trailing whitespace. -/
def pyStrip (s : String) : String :=
  String.mk (((s.data.dropWhile Char.isWhitespace).reverse.dropWhile
    Char.isWhitespace).reverse)

/-- Python `" ".join(words)` at the character level. -/
def joinWords : List (List Char) → List Char
  | [] => []
  | [w] => w
  | w :: rest => w ++ ' ' :: joinWords rest

/-- `neatify(arg)`: purge characters outside `[a-zA-Z ']` to spaces, collapse
a trailing stand-alone character or `mn` token, split on whitespace dropping
empty pieces, re-join with single spaces, and casefold (ASCII lower-casing:
after the purge only ASCII characters remain). -/
def neatify (arg : String) : String :=
  let purged := arg.data.map (fun c => if keptChar c then c else ' ')
  let collapsed := standAloneSub purged
  let words := (collapsed.splitOnP (fun c => c = ' ')).filter (fun w => w ≠ [])
  String.mk ((joinWords words).map Char.toLower)

/-! ## `utils.py`: reference data and country counting

`CONTRY_TO_ISO3166_MAPPING`, `ISO3166_ALPHA3` and `pycountry.countries` are
built at module start from reference data files and the pycountry catalog,
both external to the repository; they enter the embedding as an explicit
read-only parameter. -/

/-- A pycountry catalog record, restricted to the fields the source reads:
the alpha-3 code and the optional `name`, `official_name` and `comment`
entries of `_fields`. -/
structure Country where
  alpha_3 : String
  name : Option String
  official_name : Option String
  comment : Option String
  deriving DecidableEq

/-- The module-level reference data: the name-to-code CSV mapping (rows with
empty codes are dropped by the loader), the set of valid alpha-3 codes, and
the pycountry catalog. -/
structure RefData where
  countryToIso : List (String × String)
  alpha3 : List String
  catalog : List Country

/-- Python `d.get(k, dflt)`. -/
def pyDictGetD (d : List (String × String)) (k : String) (dflt : String) :
    String :=
  (List.lookup k d).getD dflt

/-- `count_countries(series)`: the number of cells whose neatified text has a
non-empty reference-mapping entry, upper-cases to a valid alpha-3 code, or
upper-cases to one of the five fixed continent names. -/
def count_countries (ref : RefData) (series : List String) : Nat :=
  series.foldl (fun total cell =>
    let n := neatify cell
    if pyDictGetD ref.countryToIso (neatify cell) "" ≠ "" ∨
        pyUpper n ∈ ref.alpha3 ∨
        pyUpper n ∈ ["AFRICA", "EUROPE", "AMERICA", "ASIA", "NORTH AMERICA"]
    then total + 1 else total) 0

/-! ## `utils.py`: CbCR term counting and the orientation classifier -/

/-- A compiled CbCR term pattern: a literal substring, or — for `\wrelated` —
a word character followed by a literal. -/
inductive TermPat where
  | lit (t : String)
  | wordCharThen (t : String)

/-- Python `\w` (modelled for the ASCII fragment): letters, digits and the
underscore. -/
def isWordChar (c : Char) : Bool := c.isAlphanum || c = '_'

/-- `re.search` of a word character followed by the literal `t`. -/
def wordCharSearch (t : List Char) : List Char → Bool
  | [] => false
  | c :: rest => (isWordChar c && t.isPrefixOf rest) || wordCharSearch t rest

/-- `term.search(s)` for a compiled term pattern (case-sensitive, as in the
source: the terms are compiled without flags). -/
def termSearch (p : TermPat) (s : List Char) : Bool :=
  match p with
  | .lit t => (afterFirst t.data s).isSome
  | .wordCharThen t => wordCharSearch t.data s

/-- `COMPILED_CBCR_TERMS`: the English terms followed by the Italian terms. -/
def COMPILED_CBCR_TERMS : List TermPat :=
  [.lit "tax", .wordCharThen "related", .lit "income", .lit "employee",
   .lit "unrelated", .lit "third", .lit "tangible", .lit "assets",
   .lit "party", .lit "parties", .lit "accrued", .lit "profit",
   .lit "revenue",
   .lit "imposte", .lit "pagate", .lit "reddito", .lit "utile"]

/-- `count_CbCR_terms(s)`: how many of the term patterns hit somewhere in
`s`, each term counted at most once. -/
def count_CbCR_terms (s : String) : Nat :=
  COMPILED_CBCR_TERMS.foldl
    (fun nMatches term => nMatches + if termSearch term s.data then 1 else 0) 0

/-- A pandas DataFrame as the classifier consumes it: named columns of cell
strings; `df.items()` iterates the columns, `df.iterrows()` the transposed
value lists. -/
structure DF where
  colNames : List String
  cols : List (List String)

/-- Modelled from pandas `Series.to_string()` on a row produced by
`DataFrame.iterrows()`: one line per cell, the column name and the cell value
separated by whitespace. -/
def rowToString (colNames row : List String) : String :=
  String.intercalate "\n"
    (List.zipWith (fun n v => n ++ "    " ++ v) colNames row)

/-- The row loop of `is_transposed`: the first row whose stringified form
contains at least `min_nb_cols` CbCR terms decides *not transposed*; failing
that, the first row with at least `min_nb_jurs_per_table` country-like cells
decides *transposed*; a completed scan raises
`ValueError("\nCan't tell whether transposed.\n")`. -/
def scanRows (ref : RefData) (report : CbCReport) (colNames : List String) :
    List (List String) → Except PyExc Bool
  | [] => .error .valueError
  | row :: rest =>
    if report.min_nb_cols ≤ count_CbCR_terms (rowToString colNames row) then
      .ok false
    else if report.min_nb_jurs_per_table ≤ count_countries ref row then
      .ok true
    else scanRows ref report colNames rest

/-- `is_transposed(df, report)`: any column with at least
`min_nb_jurs_per_table` country-like cells decides *not transposed* before any
row is examined; otherwise the rows are scanned in order. -/
def is_transposed (ref : RefData) (df : DF) (report : CbCReport) :
    Except PyExc Bool :=
  if df.cols.any
      (fun values => report.min_nb_jurs_per_table ≤ count_countries ref values)
  then .ok false
  else scanRows ref report df.colNames df.cols.transpose

/-! ## `utils.py`: fuzzy country matching -/

/-- Modelled from `pycountry.remove_accents` for the accent-free text in
scope, on which it is the identity. -/
def removeAccents (s : String) : String := s

/-- A `_fields` entry compared by `lookup`: equality against the lowercased
field value. -/
def countryFieldEq (q : String) (f : Option String) : Bool :=
  match f with
  | some v => q = pyLower v
  | none => false

/-- Modelled from `pycountry`'s `Database.lookup`: the first catalog record
one of whose fields equals the query case-insensitively. -/
def catalogLookup (cs : List Country) (q : String) : Option Country :=
  cs.find? (fun c =>
    q = pyLower c.alpha_3 || countryFieldEq q c.name ||
    countryFieldEq q c.official_name || countryFieldEq q c.comment)

/-- `add_result(country, points)`: `setdefault(code, 0)` followed by
`results[code] += points` on an insertion-ordered dict. -/
def addResult (results : List (String × Nat)) (code : String) (points : Nat) :
    List (String × Nat) :=
  match List.lookup code results with
  | some old =>
    results.map (fun p => if p.1 = code then (code, old + points) else p)
  | none => results ++ [(code, points)]

/-- Python `v.find(q)` when the occurrence test has already succeeded: the
index of the leftmost occurrence of `q` in `v`. -/
def firstOccurIdx (needle : List Char) : List Char → Option Nat
  | [] => if needle.isPrefixOf ([] : List Char) then some 0 else none
  | c :: rest =>
    if needle.isPrefixOf (c :: rest) then some 0
    else (firstOccurIdx needle rest).map (fun i => i + 1)

/-- The inner field loop of `my_search_fuzzy`: fields are tried in the order
`name`, `official_name`, `comment`; absent fields are skipped; the first field
containing the query yields `max(5, 30 - 2 * v.find(query))` and stops the
loop.  (Over natural numbers the truncated `30 - 2*idx` agrees with Python's
value whenever the maximum with `5` is taken.) -/
def fieldBonus (q : String) : List (Option String) → Option Nat
  | [] => none
  | none :: rest => fieldBonus q rest
  | some v :: rest =>
    let w := removeAccents (pyLower v)
    match firstOccurIdx q.data w.data with
    | some idx => some (max 5 (30 - 2 * idx))
    | none => fieldBonus q rest

/-- The field list handed to the inner loop, in source order. -/
def countryFields (c : Country) : List (Option String) :=
  [c.name, c.official_name, c.comment]

/-- The candidate loop of `my_search_fuzzy`: every catalog record whose field
loop scores contributes `add_result(candidate, bonus)`. -/
def scoreAll (cs : List Country) (q : String)
    (init : List (String × Nat)) : List (String × Nat) :=
  cs.foldl (fun acc c =>
    match fieldBonus q (countryFields c) with
    | some pts => addResult acc c.alpha_3 pts
    | none => acc) init

/-- The aggregated score dict of `my_search_fuzzy`: the exact-lookup hit seeds
the dict with `+50`, then the candidate loop adds the partial-match bonuses. -/
def fuzzyResults (cs : List Country) (q : String) : List (String × Nat) :=
  scoreAll cs q
    (match catalogLookup cs q with
     | some c => addResult [] c.alpha_3 50
     | none => [])

/-- The per-country score the specification describes: 50 for an exact
name-lookup hit, plus — when one of the fields name, official name, comment
contains the query — the first matching field's positional bonus
`max(5, 30 - 2 * position)`. -/
def specScore (cs : List Country) (q : String) (c : Country) : Nat :=
  (if catalogLookup cs q = some c then 50 else 0) +
    (fieldBonus q (countryFields c)).getD 0

/-- The sort order of the final `sorted(results.items(), key=(-points, code))`:
by descending points, then ascending code. -/
def resultsBefore (a b : String × Nat) : Prop :=
  b.2 < a.2 ∨ (a.2 = b.2 ∧ a.1 ≤ b.1)

instance : DecidableRel resultsBefore := fun _ _ =>
  inferInstanceAs (Decidable (_ ∨ _))

/-- `my_search_fuzzy(self, query)`: strip, lower-case and de-accent the
query; special-case the three continent names to a synthetic single result;
otherwise aggregate the scores, raise `LookupError` when nothing scored, and
return the score pairs sorted by descending points with the code as
tie-break. -/
def my_search_fuzzy (cs : List Country) (query : String) :
    Except PyExc (List (String × Nat)) :=
  let q := removeAccents (pyLower (pyStrip query))
  if q = "africa" ∨ q = "america" ∨ q = "europe" then .ok [(q, 51)]
  else
    let results := fuzzyResults cs q
    if results.isEmpty then .error .lookupError
    else .ok (results.insertionSort resultsBefore)

/-! ## `utils.py`: jurisdiction normalization -/

/-- `auto_jurisdiction_to_iso3166(z)`: return the neatified text uppercased
when it is a valid alpha-3 code; else consult the reference mapping; else —
for a non-empty neatified text whose raw uppercase is not already a code —
attempt the fuzzy search, swallowing every failure; finally fall back to the
neatified text, or to the sentinel when it is empty. -/
def auto_jurisdiction_to_iso3166 (ref : RefData) (z : String) : String :=
  let x := neatify z
  if pyUpper x ∈ ref.alpha3 then pyUpper x
  else
    let c := pyDictGetD ref.countryToIso x ""
    let c :=
      if x ≠ "" ∧ c = "" ∧ pyUpper z ∉ ref.alpha3 then
        match my_search_fuzzy ref.catalog x with
        | .ok ((code, _) :: _) => code
        | _ => c
      else c
    if c ≠ "" then c else if x ≠ "" then x else "<empty>"

/-- A small concrete reference-data set used to witness the classifier and
normalization claims. -/
def exRef : RefData :=
  ⟨[("italy", "ITA"), ("france", "FRA")], ["ITA", "FRA"],
    [⟨"ITA", some "Italy", some "Italian Republic", none⟩,
     ⟨"FRA", some "France", some "French Republic", none⟩]⟩

/-- A table whose first column holds a recognizable jurisdiction. -/
def exDF1 : DF := ⟨["h1"], [["Italy", "x"]]⟩

/-- A table whose columns stay below the jurisdiction threshold but whose
first row carries two CbCR terms. -/
def exDF2 : DF := ⟨["h1", "h2"], [["tax paid", "Italy"], ["profit", "France"]]⟩

/-- A transposed table: jurisdictions run along the first row. -/
def exDF3 : DF := ⟨["h1", "h2"], [["Italy", "x"], ["France", "y"]]⟩

/-- A table with no recognizable structure at all. -/
def exDF4 : DF := ⟨["h1"], [["x"]]⟩

/-- Report thresholds used with the concrete tables. -/
def exReportT : CbCReport := ⟨"MNC", "2020", 2, 2⟩

/-- Report thresholds for the transposed and undecidable tables. -/
def exReportT2 : CbCReport := ⟨"MNC", "2020", 2, 1⟩

/-! ## State-passing forms of the read-only `Rules` operations

Python methods receive the mutable `self`; the embedding of each read-only
operation threads the `Rules` value through and returns the object observable
after the call alongside the query result.  None of the four translated bodies
assigns into the stored trees: the merge builds a fresh dict (`{**a, **b,
**c}` copies) and the sink-reduction rebinds keys of that fresh dict only. -/

/-- `get_sink_from_strict` with the post-call object. -/
def get_sink_from_strictS (r : Rules) (report : CbCReport)
    (source col_or_jur : String) : Except PyExc (Option Json) × Rules :=
  (get_sink_from_strict r report source col_or_jur, r)

/-- `get_sink_from_regex` with the post-call object. -/
def get_sink_from_regexS (r : Rules) (report : CbCReport)
    (source col_or_jur : String) : Except PyExc (Option Json) × Rules :=
  (get_sink_from_regex r report source col_or_jur, r)

/-- `get_std_colnames_from_rules` with the post-call object. -/
def get_std_colnames_from_rulesS (r : Rules) : List String × Rules :=
  (get_std_colnames_from_rules r, r)

/-- `export_justifications_to_csv` (its written text) with the post-call
object. -/
def export_justificationsS (r : Rules) : Except PyExc String × Rules :=
  (export_justifications r, r)

/-- Executable form of "every value of the mapping survives the sink
reduction", used as a hypothesis about well-formed scopes. -/
def reducesOkB (l : List (String × Json)) : Bool :=
  l.all (fun p => (reduceSink p.2).toOption.isSome)

/-! ## Example rule books used to witness the claims -/

/-- Global-default scope of the example column tree. -/
def exD : List (String × Json) := [("g", .str "gs"), ("h", .str "hs")]

/-- Company-default scope of the example column tree (a full RuleEntry). -/
def exM : List (String × Json) :=
  [("g", .obj [("sink", .str "ms"), ("justification", .str "jm")])]

/-- Company-year scope of the example column tree. -/
def exY : List (String × Json) := [("g", .str "ys")]

/-- Company subtree with both a default and a year sub-scope. -/
def exC : List (String × Json) := [("default", .obj exM), ("2020", .obj exY)]

/-- Example column tree: global default plus one company. -/
def exT : List (String × Json) := [("default", .obj exD), ("MNC", .obj exC)]

/-- An empty jurisdiction tree (just the mandatory default scope). -/
def exJur : Json := .obj [("default", .obj [])]

/-- Example `Rules` object over `exT`. -/
def exRules : Rules :=
  ⟨[("column_rules", .obj exT), ("jurisdiction_rules", exJur)], .obj exT, exJur⟩

/-- Example report matching the company and year of `exT`. -/
def exReport : CbCReport := ⟨"MNC", "2020", 1, 1⟩

/-- Company subtree without a year sub-scope. -/
def exC2 : List (String × Json) := [("default", .obj exM)]

/-- Column tree whose company lacks the year sub-scope. -/
def exT2 : List (String × Json) := [("default", .obj exD), ("MNC", .obj exC2)]

/-- `Rules` object over `exT2`. -/
def exRules2 : Rules :=
  ⟨[("column_rules", .obj exT2), ("jurisdiction_rules", exJur)], .obj exT2,
    exJur⟩

/-- Column tree without any company scope. -/
def exT3 : List (String × Json) := [("default", .obj exD)]

/-- `Rules` object over `exT3`. -/
def exRules3 : Rules :=
  ⟨[("column_rules", .obj exT3), ("jurisdiction_rules", exJur)], .obj exT3,
    exJur⟩

/-! ## Lemmas: the ordered-dict embedding -/

theorem lookup_cons_eq {α : Type} (k k' : String) (v : α)
    (rest : List (String × α)) :
    List.lookup k ((k', v) :: rest) =
      if k = k' then some v else List.lookup k rest := by
  by_cases h : k = k'
  · subst h; simp [List.lookup_cons]
  · rw [List.lookup_cons, if_neg h,
      show (k == k') = false from beq_eq_false_iff_ne.mpr h]

theorem lookup_eq_none_iff {α : Type} (d : List (String × α)) (k : String) :
    List.lookup k d = none ↔ k ∉ d.map Prod.fst := by
  induction d with
  | nil => simp
  | cons p rest ih =>
    obtain ⟨k', v⟩ := p
    rw [lookup_cons_eq]
    by_cases h : k = k'
    · subst h; simp
    · rw [if_neg h]; simp [h, ih]

theorem lookup_map_overwrite {α : Type} (d : List (String × α)) (k : String)
    (v : α) (h : (List.lookup k d).isSome = true) :
    List.lookup k (d.map (fun p => if p.1 = k then (k, v) else p)) = some v := by
  induction d with
  | nil => simp at h
  | cons p rest ih =>
    obtain ⟨k', w⟩ := p
    by_cases h2 : k' = k
    · subst h2
      simp only [List.map_cons]
      rw [if_pos trivial]
      rw [lookup_cons_eq, if_pos rfl]
    · simp only [List.map_cons]
      rw [show (if (k', w).1 = k then (k, v) else (k', w)) = (k', w) from
        if_neg (by simpa using h2)]
      rw [lookup_cons_eq, if_neg (fun he => h2 he.symm)]
      apply ih
      rwa [lookup_cons_eq, if_neg (fun he => h2 he.symm)] at h

theorem lookup_append_single {α : Type} (d : List (String × α)) (k : String)
    (v : α) (h : List.lookup k d = none) :
    List.lookup k (d ++ [(k, v)]) = some v := by
  induction d with
  | nil => simp [lookup_cons_eq]
  | cons p rest ih =>
    obtain ⟨k', w⟩ := p
    rw [lookup_cons_eq] at h
    by_cases h2 : k = k'
    · rw [if_pos h2] at h; exact absurd h (by simp)
    · rw [if_neg h2] at h
      rw [List.cons_append, lookup_cons_eq, if_neg h2]
      exact ih h

theorem lookup_dictInsert_self {α : Type} (d : List (String × α)) (k : String)
    (v : α) : List.lookup k (dictInsert d k v) = some v := by
  unfold dictInsert
  split
  · exact lookup_map_overwrite d k v (by assumption)
  · rename_i h
    exact lookup_append_single d k v (by
      rcases hl : List.lookup k d with _ | w
      · rfl
      · rw [hl] at h; simp at h)

theorem lookup_map_overwrite_ne {α : Type} (d : List (String × α))
    (k k' : String) (v : α) (h : k ≠ k') :
    List.lookup k (d.map (fun p => if p.1 = k' then (k', v) else p)) =
      List.lookup k d := by
  induction d with
  | nil => simp
  | cons p rest ih =>
    obtain ⟨k'', w⟩ := p
    by_cases h2 : k'' = k'
    · subst h2
      simp only [List.map_cons]
      rw [if_pos trivial]
      rw [lookup_cons_eq, if_neg h, lookup_cons_eq, if_neg h]
      exact ih
    · simp only [List.map_cons]
      rw [show (if (k'', w).1 = k' then (k', v) else (k'', w)) = (k'', w) from
        if_neg (by simpa using h2)]
      rw [lookup_cons_eq, lookup_cons_eq]
      by_cases h3 : k = k''
      · rw [if_pos h3, if_pos h3]
      · rw [if_neg h3, if_neg h3]; exact ih

theorem lookup_append_single_ne {α : Type} (d : List (String × α))
    (k k' : String) (v : α) (h : k ≠ k') :
    List.lookup k (d ++ [(k', v)]) = List.lookup k d := by
  induction d with
  | nil => simp [lookup_cons_eq, h]
  | cons p rest ih =>
    obtain ⟨k'', w⟩ := p
    rw [List.cons_append, lookup_cons_eq, lookup_cons_eq]
    by_cases h3 : k = k''
    · rw [if_pos h3, if_pos h3]
    · rw [if_neg h3, if_neg h3]; exact ih

theorem lookup_dictInsert_ne {α : Type} (d : List (String × α))
    (k k' : String) (v : α) (h : k ≠ k') :
    List.lookup k (dictInsert d k' v) = List.lookup k d := by
  unfold dictInsert
  split
  · exact lookup_map_overwrite_ne d k k' v h
  · exact lookup_append_single_ne d k k' v h

theorem keys_dictInsert_mem {α : Type} (d : List (String × α)) (k : String)
    (v : α) (h : k ∈ d.map Prod.fst) :
    (dictInsert d k v).map Prod.fst = d.map Prod.fst := by
  unfold dictInsert
  rw [if_pos]
  · clear h
    induction d with
    | nil => simp
    | cons p rest ih =>
      obtain ⟨k', w⟩ := p
      by_cases h2 : k' = k
      · subst h2; simp [ih]
      · simp only [List.map_cons]
        rw [if_neg (by simp [h2])]
        simp [ih]
  · rw [Option.isSome_iff_ne_none]
    intro hnone
    exact absurd h ((lookup_eq_none_iff d k).mp hnone)

theorem keys_dictInsert_not_mem {α : Type} (d : List (String × α))
    (k : String) (v : α) (h : k ∉ d.map Prod.fst) :
    (dictInsert d k v).map Prod.fst = d.map Prod.fst ++ [k] := by
  unfold dictInsert
  rw [if_neg]
  · simp
  · rw [(lookup_eq_none_iff d k).mpr h]
    simp

theorem nodup_keys_dictInsert {α : Type} (d : List (String × α)) (k : String)
    (v : α) (h : (d.map Prod.fst).Nodup) :
    ((dictInsert d k v).map Prod.fst).Nodup := by
  by_cases hk : k ∈ d.map Prod.fst
  · rw [keys_dictInsert_mem d k v hk]; exact h
  · rw [keys_dictInsert_not_mem d k v hk]
    refine h.append (List.nodup_singleton k) ?_
    intro a ha hmem
    rw [List.mem_singleton] at hmem
    exact hk (hmem ▸ ha)

theorem nodup_keys_dictMerge {α : Type} (a b : List (String × α))
    (h : (a.map Prod.fst).Nodup) : ((dictMerge a b).map Prod.fst).Nodup := by
  induction b generalizing a with
  | nil => exact h
  | cons p rest ih =>
    exact ih (dictInsert a p.1 p.2) (nodup_keys_dictInsert a p.1 p.2 h)

theorem dictMerge_cons {α : Type} (a : List (String × α)) (p : String × α)
    (b : List (String × α)) :
    dictMerge a (p :: b) = dictMerge (dictInsert a p.1 p.2) b := rfl

theorem lookup_dictMerge {α : Type} (a b : List (String × α))
    (hb : (b.map Prod.fst).Nodup) (k : String) :
    List.lookup k (dictMerge a b) = (List.lookup k b).or (List.lookup k a) := by
  induction b generalizing a with
  | nil => simp [dictMerge]
  | cons p rest ih =>
    obtain ⟨k', v⟩ := p
    rw [dictMerge_cons]
    simp only [List.map_cons, List.nodup_cons] at hb
    rw [ih (dictInsert a k' v) hb.2]
    by_cases h : k = k'
    · subst h
      rw [(lookup_eq_none_iff rest k).mpr hb.1, lookup_dictInsert_self]
      simp [List.lookup_cons]
    · rw [lookup_dictInsert_ne a k k' v h]
      simp only [List.lookup_cons]
      rw [show (k == k') = false by simp [h]]

theorem keys_dictMerge {α : Type} (a b : List (String × α))
    (hb : (b.map Prod.fst).Nodup) :
    (dictMerge a b).map Prod.fst =
      a.map Prod.fst ++
        (b.map Prod.fst).filter (fun k => k ∉ a.map Prod.fst) := by
  induction b generalizing a with
  | nil => simp [dictMerge]
  | cons p rest ih =>
    obtain ⟨k', v⟩ := p
    rw [dictMerge_cons]
    simp only [List.map_cons, List.nodup_cons] at hb
    rw [ih (dictInsert a k' v) hb.2]
    by_cases h : k' ∈ a.map Prod.fst
    · rw [keys_dictInsert_mem a k' v h]
      simp only [List.map_cons, List.filter_cons]
      rw [show (decide (k' ∉ a.map Prod.fst)) = false by simp [h]]
      simp
    · rw [keys_dictInsert_not_mem a k' v h]
      simp only [List.map_cons, List.filter_cons]
      rw [show (decide (k' ∉ a.map Prod.fst)) = true by simp [h]]
      simp only [if_true, List.append_assoc, List.singleton_append]
      congr 1
      congr 1
      apply List.filter_congr
      intro x hx
      have hxk : x ≠ k' := fun he => hb.1 (he ▸ hx)
      simp [hxk]

theorem foldl_dictInsert_eq_append {α : Type} (l acc : List (String × α))
    (hdisj : ∀ k ∈ l.map Prod.fst, k ∉ acc.map Prod.fst)
    (hn : (l.map Prod.fst).Nodup) :
    l.foldl (fun a p => dictInsert a p.1 p.2) acc = acc ++ l := by
  induction l generalizing acc with
  | nil => simp
  | cons p rest ih =>
    obtain ⟨k, v⟩ := p
    simp only [List.map_cons, List.nodup_cons] at hn
    simp only [List.foldl_cons]
    rw [show dictInsert acc k v = acc ++ [(k, v)] by
      unfold dictInsert
      rw [if_neg]
      rw [(lookup_eq_none_iff acc k).mpr (hdisj k (by simp))]
      simp]
    rw [ih (acc ++ [(k, v)])]
    · simp
    · intro k' hk'
      simp only [List.map_append, List.map_cons, List.map_nil, List.mem_append,
        List.mem_singleton]
      push_neg
      constructor
      · exact hdisj k' (by simp [hk'])
      · exact fun he => hn.1 (he ▸ hk')
    · exact hn.2

theorem dictFromPairs_of_nodup {α : Type} (l : List (String × α))
    (h : (l.map Prod.fst).Nodup) : dictFromPairs l = l := by
  unfold dictFromPairs
  rw [foldl_dictInsert_eq_append l [] (by simp) h]
  simp

theorem lookup_filter_key {α : Type} (l : List (String × α))
    (pred : String → Bool) (k : String) (hk : pred k = true) :
    List.lookup k (l.filter (fun p => pred p.1)) = List.lookup k l := by
  induction l with
  | nil => simp
  | cons p rest ih =>
    obtain ⟨k', v⟩ := p
    by_cases h : k = k'
    · subst h
      simp only [List.filter_cons, hk, if_true]
      rw [lookup_cons_eq, if_pos rfl, lookup_cons_eq, if_pos rfl]
    · simp only [List.filter_cons]
      cases hp : pred k'
      · simp only [Bool.false_eq_true, if_false]
        rw [ih, lookup_cons_eq, if_neg h]
      · simp only [if_true]
        rw [lookup_cons_eq, if_neg h, lookup_cons_eq, if_neg h, ih]

/-! ## Further lemmas: marker search and key membership -/

theorem takeWhile_all {α : Type} (p : α → Bool) (l : List α)
    (h : ∀ c ∈ l, p c = true) : l.takeWhile p = l := by
  induction l with
  | nil => rfl
  | cons c rest ih =>
    rw [List.takeWhile_cons, h c (by simp),
      ih (fun c hc => h c (by simp [hc]))]
    simp

theorem afterFirst_of_startsWith (pat s : List Char)
    (h : pat.isPrefixOf s = true) :
    afterFirst pat s = some (s.drop pat.length) := by
  cases s with
  | nil =>
    unfold afterFirst
    rw [if_pos h]
    simp
  | cons c rest =>
    unfold afterFirst
    rw [if_pos h]

theorem afterFirst_isSome_iff (pat s : List Char) :
    (afterFirst pat s).isSome = true ↔ ∃ u v, s = u ++ pat ++ v := by
  induction s with
  | nil =>
    unfold afterFirst
    by_cases h : pat.isPrefixOf ([] : List Char)
    · rw [if_pos h]
      have : pat = [] := by
        have := List.isPrefixOf_iff_prefix.mp h
        simpa using this
      subst this
      simp
    · rw [if_neg h]
      have hne : pat ≠ [] := fun he => h (by subst he; simp [List.isPrefixOf])
      simp only [Option.isSome_none, Bool.false_eq_true, false_iff]
      rintro ⟨u, v, huv⟩
      rcases List.append_eq_nil.mp ((List.append_assoc u pat v) ▸ huv.symm)
        with ⟨hu, hrest⟩
      exact hne (List.append_eq_nil.mp hrest).1
  | cons c rest ih =>
    unfold afterFirst
    by_cases h : pat.isPrefixOf (c :: rest)
    · rw [if_pos h]
      simp only [Option.isSome_some, true_iff]
      obtain ⟨v, hv⟩ := List.isPrefixOf_iff_prefix.mp h
      exact ⟨[], v, by simp [hv.symm]⟩
    · rw [if_neg h]
      rw [ih]
      constructor
      · rintro ⟨u, v, huv⟩
        exact ⟨c :: u, v, by simp [huv]⟩
      · rintro ⟨u, v, huv⟩
        cases u with
        | nil =>
          exfalso
          apply h
          apply List.isPrefixOf_iff_prefix.mpr
          exact ⟨v, by simpa using huv.symm⟩
        | cons c0 u' =>
          simp only [List.cons_append, List.cons.injEq] at huv
          exact ⟨u', v, huv.2⟩

theorem mem_keys_dictInsert {α : Type} (d : List (String × α))
    (k0 : String) (v : α) (k : String) :
    k ∈ (dictInsert d k0 v).map Prod.fst ↔
      k ∈ d.map Prod.fst ∨ k = k0 := by
  by_cases h : k0 ∈ d.map Prod.fst
  · rw [keys_dictInsert_mem d k0 v h]
    constructor
    · exact fun hk => Or.inl hk
    · rintro (hk | hk)
      · exact hk
      · exact hk ▸ h
  · rw [keys_dictInsert_not_mem d k0 v h]
    simp

theorem mem_keys_foldl_dictInsert {α : Type} (l acc : List (String × α))
    (k : String) :
    k ∈ ((l.foldl (fun a p => dictInsert a p.1 p.2) acc).map Prod.fst) ↔
      k ∈ acc.map Prod.fst ∨ k ∈ l.map Prod.fst := by
  induction l generalizing acc with
  | nil => simp
  | cons p rest ih =>
    simp only [List.foldl_cons]
    rw [ih (dictInsert acc p.1 p.2), mem_keys_dictInsert]
    simp only [List.map_cons, List.mem_cons]
    tauto

theorem mem_keys_dictFromPairs {α : Type} (l : List (String × α))
    (k : String) :
    k ∈ (dictFromPairs l).map Prod.fst ↔ k ∈ l.map Prod.fst := by
  unfold dictFromPairs
  rw [mem_keys_foldl_dictInsert]
  simp

theorem lookup_eq_of_mem_nodup {α : Type} (l : List (String × α))
    (p : String × α) (hp : p ∈ l) (hn : (l.map Prod.fst).Nodup) :
    List.lookup p.1 l = some p.2 := by
  induction l with
  | nil => cases hp
  | cons q rest ih =>
    obtain ⟨k', v⟩ := q
    simp only [List.map_cons, List.nodup_cons] at hn
    rcases List.mem_cons.mp hp with h | h
    · subst h
      rw [lookup_cons_eq, if_pos rfl]
    · rw [lookup_cons_eq]
      have hne : p.1 ≠ k' := by
        intro he
        exact hn.1 (he ▸ List.mem_map_of_mem Prod.fst h)
      rw [if_neg hne]
      exact ih h hn.2

/-- Column tree holding two regex rules registered in order. -/
def exTRx : List (String × Json) :=
  [("default", .obj [("_regex_^A", .str "x"), ("_regex_^AB", .str "y")])]

/-- `Rules` object over the two ordered regex rules. -/
def exRulesRx : Rules :=
  ⟨[("column_rules", .obj exTRx), ("jurisdiction_rules", exJur)],
    .obj exTRx, exJur⟩

/-- A concrete merged mapping with one strict and one regex entry. -/
def exPart : List (String × Json) :=
  [("X", .str "a"), ("_regex_^B", .str "b")]

/-! ## Lemmas: the `Except` monad on our exceptions -/

theorem bind_ok {α β : Type} (a : α) (f : α → Except PyExc β) :
    (Except.ok a : Except PyExc α) >>= f = f a := rfl

theorem bind_error {α β : Type} (e : PyExc) (f : α → Except PyExc β) :
    (Except.error e : Except PyExc α) >>= f = .error e := rfl

/-! ## Lemmas: sink reduction -/

theorem reduceAll_ok (l : List (String × Json)) (h : reducesOkB l = true) :
    ∃ l', reduceAll l = .ok l' := by
  induction l with
  | nil => exact ⟨[], rfl⟩
  | cons p rest ih =>
    obtain ⟨k, v⟩ := p
    simp only [reducesOkB, List.all_cons, Bool.and_eq_true] at h
    obtain ⟨w, hw⟩ : ∃ w, reduceSink v = .ok w := by
      rcases hv : reduceSink v with e | w
      · rw [hv] at h; simp [Except.toOption] at h
      · exact ⟨w, rfl⟩
    obtain ⟨rest', hr⟩ := ih h.2
    exact ⟨(k, w) :: rest', by simp [reduceAll, hw, hr]⟩

theorem keys_reduceAll (l l' : List (String × Json))
    (h : reduceAll l = .ok l') : l'.map Prod.fst = l.map Prod.fst := by
  induction l generalizing l' with
  | nil =>
    simp only [reduceAll] at h
    cases h; rfl
  | cons p rest ih =>
    obtain ⟨k, v⟩ := p
    simp only [reduceAll] at h
    rcases hv : reduceSink v with e | w <;> rw [hv] at h
    · cases h
    · rcases hr : reduceAll rest with e | rest' <;> rw [hr] at h
      · cases h
      · cases h
        simp [ih rest' hr]

theorem lookup_reduceAll (l l' : List (String × Json)) (k : String)
    (h : reduceAll l = .ok l') :
    List.lookup k l' =
      (List.lookup k l).bind (fun v => (reduceSink v).toOption) := by
  induction l generalizing l' with
  | nil =>
    simp only [reduceAll] at h
    cases h; rfl
  | cons p rest ih =>
    obtain ⟨k0, v⟩ := p
    simp only [reduceAll] at h
    rcases hv : reduceSink v with e | w <;> rw [hv] at h
    · cases h
    · rcases hr : reduceAll rest with e | rest' <;> rw [hr] at h
      · cases h
      · cases h
        rw [lookup_cons_eq, lookup_cons_eq]
        by_cases hk : k = k0
        · rw [if_pos hk, if_pos hk]
          simp [hv, Except.toOption]
        · rw [if_neg hk, if_neg hk]
          exact ih rest' hr

theorem reducesOkB_dictInsert (d : List (String × Json)) (k : String)
    (v : Json) (hd : reducesOkB d = true)
    (hv : (reduceSink v).toOption.isSome = true) :
    reducesOkB (dictInsert d k v) = true := by
  unfold dictInsert
  simp only [reducesOkB, List.all_eq_true] at hd ⊢
  split
  · intro p hp
    obtain ⟨q, hq, hqe⟩ := List.mem_map.mp hp
    by_cases h : q.1 = k
    · rw [if_pos h] at hqe
      subst hqe; exact hv
    · rw [if_neg h] at hqe
      subst hqe; exact hd q hq
  · intro p hp
    rcases List.mem_append.mp hp with h | h
    · exact hd p h
    · rw [List.mem_singleton] at h
      subst h; exact hv

theorem reducesOkB_dictMerge (a b : List (String × Json))
    (ha : reducesOkB a = true) (hb : reducesOkB b = true) :
    reducesOkB (dictMerge a b) = true := by
  induction b generalizing a with
  | nil => exact ha
  | cons p rest ih =>
    simp only [reducesOkB, List.all_cons, Bool.and_eq_true] at hb
    exact ih (dictInsert a p.1 p.2)
      (reducesOkB_dictInsert a p.1 p.2 ha hb.1) hb.2

/-! ## Lemmas: the strict / regex partition -/

theorem strictPart_eq_filter (l : List (String × Json))
    (h : (l.map Prod.fst).Nodup) :
    strictPart l = l.filter (fun p => ¬ hasMarker p.1) := by
  unfold strictPart
  apply dictFromPairs_of_nodup
  exact List.Nodup.sublist ((List.filter_sublist l).map Prod.fst) h

theorem lookup_strictPart (l : List (String × Json)) (k : String)
    (hn : (l.map Prod.fst).Nodup) (hk : hasMarker k = false) :
    List.lookup k (strictPart l) = List.lookup k l := by
  rw [strictPart_eq_filter l hn]
  exact lookup_filter_key l (fun s => ¬ hasMarker s) k (by simp [hk])

/-! ## Lemmas: scope gathering -/

theorem scopeLookup_absent (T : List (String × Json)) (k1 k2 : String)
    (h : List.lookup k1 T = none) :
    scopeLookup (.obj T) k1 k2 = .ok (.obj []) := by
  simp [scopeLookup, Json.getItem, h, tryKeyErr, bind_error]

theorem scopeLookup_sub_absent (T C : List (String × Json)) (k1 k2 : String)
    (h1 : List.lookup k1 T = some (.obj C)) (h2 : List.lookup k2 C = none) :
    scopeLookup (.obj T) k1 k2 = .ok (.obj []) := by
  simp [scopeLookup, Json.getItem, h1, h2, tryKeyErr, bind_ok]

theorem scopeLookup_found (T C : List (String × Json)) (k1 k2 : String)
    (v : Json) (h1 : List.lookup k1 T = some (.obj C))
    (h2 : List.lookup k2 C = some v) :
    scopeLookup (.obj T) k1 k2 = .ok v := by
  simp [scopeLookup, Json.getItem, h1, h2, tryKeyErr, bind_ok]

/-! ## Lemmas: the resolved rule sets -/

theorem getRules_resolved
    (r : Rules) (report : CbCReport) (ax sr : String)
    (T D M Y red : List (String × Json))
    (hT : (if ax = "c" then r.column else r.jurisdiction) = .obj T)
    (hD : List.lookup "default" T = some (.obj D))
    (hY : scopeLookup (.obj T) report.group_name report.end_of_year =
      .ok (.obj Y))
    (hM : scopeLookup (.obj T) report.group_name "default" = .ok (.obj M))
    (hred : reduceAll (dictMerge (dictMerge D M) Y) = .ok red) :
    getRules r ax sr report =
      .ok (if sr = "s" then strictPart red else regexDictOf red) := by
  unfold getRules
  rw [hT]
  simp only [Json.getItem, hD, bind_ok, hY, hM, asObj, hred]
  by_cases hsr : sr = "s" <;> simp [hsr, pure, Except.pure]

theorem get_sink_from_strict_resolved
    (r : Rules) (report : CbCReport) (ax : String)
    (T D M Y : List (String × Json))
    (hT : (if ax = "c" then r.column else r.jurisdiction) = .obj T)
    (hD : List.lookup "default" T = some (.obj D))
    (hY : scopeLookup (.obj T) report.group_name report.end_of_year =
      .ok (.obj Y))
    (hM : scopeLookup (.obj T) report.group_name "default" = .ok (.obj M))
    (hredB : reducesOkB (dictMerge (dictMerge D M) Y) = true)
    (hnD : (D.map Prod.fst).Nodup) (hnM : (M.map Prod.fst).Nodup)
    (hnY : (Y.map Prod.fst).Nodup)
    (k : String) (hk : hasMarker k = false) :
    get_sink_from_strict r report k ax =
      .ok (((List.lookup k Y).or ((List.lookup k M).or (List.lookup k D))).bind
        (fun v => (reduceSink v).toOption)) := by
  obtain ⟨red, hred⟩ := reduceAll_ok _ hredB
  have h1 := getRules_resolved r report ax "s" T D M Y red hT hD hY hM hred
  rw [if_pos rfl] at h1
  unfold get_sink_from_strict
  rw [h1]
  dsimp only
  have hnm : ((dictMerge (dictMerge D M) Y).map Prod.fst).Nodup :=
    nodup_keys_dictMerge _ _ (nodup_keys_dictMerge _ _ hnD)
  have hnred : (red.map Prod.fst).Nodup := by
    rw [keys_reduceAll _ _ hred]; exact hnm
  rw [lookup_strictPart red k hnred hk, lookup_reduceAll _ _ k hred,
    lookup_dictMerge _ _ hnY, lookup_dictMerge _ _ hnM]

/-! ## Lemmas: nested writes -/

theorem tryKeyErrWith_ok (x : Json) (f : Except PyExc Json) :
    tryKeyErrWith (.ok x) f = .ok x := rfl

theorem tryKeyErrWith_keyError (f : Except PyExc Json) :
    tryKeyErrWith (.error .keyError) f = f := rfl

theorem setNested2_found (T C Y : List (String × Json)) (k1 k2 src : String)
    (pair : Json) (h1 : List.lookup k1 T = some (.obj C))
    (h2 : List.lookup k2 C = some (.obj Y)) :
    setNested2 (.obj T) k1 k2 src pair =
      .ok (.obj (dictInsert T k1
        (.obj (dictInsert C k2 (.obj (dictInsert Y src pair)))))) := by
  simp [setNested2, Json.getItem, h1, h2, Json.setItem, bind_ok]

theorem setNested2_sub_absent (T C : List (String × Json))
    (k1 k2 src : String) (pair : Json)
    (h1 : List.lookup k1 T = some (.obj C))
    (h2 : List.lookup k2 C = none) :
    setNested2 (.obj T) k1 k2 src pair = .error .keyError := by
  simp [setNested2, Json.getItem, h1, h2, bind_ok, bind_error]

theorem setNested2_absent (T : List (String × Json)) (k1 k2 src : String)
    (pair : Json) (h1 : List.lookup k1 T = none) :
    setNested2 (.obj T) k1 k2 src pair = .error .keyError := by
  simp [setNested2, Json.getItem, h1, bind_error]

theorem setNested1_found (T C : List (String × Json)) (k1 k2 : String)
    (v : Json) (h1 : List.lookup k1 T = some (.obj C)) :
    setNested1 (.obj T) k1 k2 v =
      .ok (.obj (dictInsert T k1 (.obj (dictInsert C k2 v)))) := by
  simp [setNested1, Json.getItem, h1, Json.setItem, bind_ok]

theorem setNested1_absent (T : List (String × Json)) (k1 k2 : String)
    (v : Json) (h1 : List.lookup k1 T = none) :
    setNested1 (.obj T) k1 k2 v = .error .keyError := by
  simp [setNested1, Json.getItem, h1, bind_error]

theorem setAxis_select (r : Rules) (ax : String) (upd : Json) :
    (if ax = "c" then (setAxis r ax upd).column
     else (setAxis r ax upd).jurisdiction) = upd := by
  unfold setAxis
  by_cases h : ax = "c" <;> simp [h]

theorem write_new_rule_company_year (r : Rules) (report : CbCReport)
    (ax source sink justification : String) (T : List (String × Json))
    (upd : Json)
    (hT : (if ax = "c" then r.column else r.jurisdiction) = .obj T)
    (hupd : tryKeyErrWith
        (setNested2 (.obj T) report.group_name report.end_of_year source
          (rulePair sink justification))
        (tryKeyErrWith
          (setNested1 (.obj T) report.group_name report.end_of_year
            (.obj [(source, rulePair sink justification)]))
          ((Json.obj T).setItem report.group_name
            (.obj [(report.end_of_year,
              .obj [(source, rulePair sink justification)])]))) = .ok upd) :
    write_new_rule r source "." sink justification ax report =
      .ok (setAxis r ax upd) := by
  unfold write_new_rule
  rw [hT]
  simp only [show ("." = "!") = False by simp, show ("." = "#") = False by simp,
    if_false, if_pos rfl, hupd, bind_ok]
  rw [if_pos trivial]
  rfl

/-! ## Claim C1 -/

/-- C1: for every report and axis, when a (non-regex) source key is present in
the global-default, company-default and company-year scopes, strict resolution
yields the company-year value for that key (values reduced to their sink);
when the company-year scope is absent or lacks the key, it yields the
company-default value; when both company scopes are absent, or both lack the
key, it yields the global-default value — overriding is per source key, so a
key present only in the global scope survives the merge. -/
theorem C1_override_precedence :
    (∀ (r : Rules) (report : CbCReport) (ax : String)
        (T C D M Y : List (String × Json)) (k : String) (vD vM vY wY : Json),
      (if ax = "c" then r.column else r.jurisdiction) = .obj T →
      List.lookup "default" T = some (.obj D) →
      List.lookup report.group_name T = some (.obj C) →
      List.lookup "default" C = some (.obj M) →
      List.lookup report.end_of_year C = some (.obj Y) →
      reducesOkB D = true → reducesOkB M = true → reducesOkB Y = true →
      (D.map Prod.fst).Nodup → (M.map Prod.fst).Nodup →
      (Y.map Prod.fst).Nodup → hasMarker k = false →
      List.lookup k D = some vD → List.lookup k M = some vM →
      List.lookup k Y = some vY → reduceSink vY = .ok wY →
      get_sink_from_strict r report k ax = .ok (some wY)) ∧
    (∀ (r : Rules) (report : CbCReport) (ax : String)
        (T C D M : List (String × Json)) (k : String) (vM wM : Json),
      (if ax = "c" then r.column else r.jurisdiction) = .obj T →
      List.lookup "default" T = some (.obj D) →
      List.lookup report.group_name T = some (.obj C) →
      List.lookup "default" C = some (.obj M) →
      List.lookup report.end_of_year C = none →
      reducesOkB D = true → reducesOkB M = true →
      (D.map Prod.fst).Nodup → (M.map Prod.fst).Nodup →
      hasMarker k = false →
      List.lookup k M = some vM → reduceSink vM = .ok wM →
      get_sink_from_strict r report k ax = .ok (some wM)) ∧
    (∀ (r : Rules) (report : CbCReport) (ax : String)
        (T C D M Y : List (String × Json)) (k : String) (vM wM : Json),
      (if ax = "c" then r.column else r.jurisdiction) = .obj T →
      List.lookup "default" T = some (.obj D) →
      List.lookup report.group_name T = some (.obj C) →
      List.lookup "default" C = some (.obj M) →
      List.lookup report.end_of_year C = some (.obj Y) →
      reducesOkB D = true → reducesOkB M = true → reducesOkB Y = true →
      (D.map Prod.fst).Nodup → (M.map Prod.fst).Nodup →
      (Y.map Prod.fst).Nodup → hasMarker k = false →
      List.lookup k Y = none →
      List.lookup k M = some vM → reduceSink vM = .ok wM →
      get_sink_from_strict r report k ax = .ok (some wM)) ∧
    (∀ (r : Rules) (report : CbCReport) (ax : String)
        (T D : List (String × Json)) (k : String) (vD wD : Json),
      (if ax = "c" then r.column else r.jurisdiction) = .obj T →
      List.lookup "default" T = some (.obj D) →
      List.lookup report.group_name T = none →
      reducesOkB D = true → (D.map Prod.fst).Nodup →
      hasMarker k = false →
      List.lookup k D = some vD → reduceSink vD = .ok wD →
      get_sink_from_strict r report k ax = .ok (some wD)) ∧
    (∀ (r : Rules) (report : CbCReport) (ax : String)
        (T C D M Y : List (String × Json)) (k : String) (vD wD : Json),
      (if ax = "c" then r.column else r.jurisdiction) = .obj T →
      List.lookup "default" T = some (.obj D) →
      List.lookup report.group_name T = some (.obj C) →
      List.lookup "default" C = some (.obj M) →
      List.lookup report.end_of_year C = some (.obj Y) →
      reducesOkB D = true → reducesOkB M = true → reducesOkB Y = true →
      (D.map Prod.fst).Nodup → (M.map Prod.fst).Nodup →
      (Y.map Prod.fst).Nodup → hasMarker k = false →
      List.lookup k Y = none → List.lookup k M = none →
      List.lookup k D = some vD → reduceSink vD = .ok wD →
      get_sink_from_strict r report k ax = .ok (some wD)) := by
  refine ⟨?_, ?_, ?_, ?_, ?_⟩
  · intro r report ax T C D M Y k vD vM vY wY hT hD hC hCd hCy hrD hrM hrY
      hnD hnM hnY hk hkD hkM hkY hwY
    rw [get_sink_from_strict_resolved r report ax T D M Y hT hD
      (scopeLookup_found T C report.group_name report.end_of_year _ hC hCy)
      (scopeLookup_found T C report.group_name "default" _ hC hCd)
      (reducesOkB_dictMerge _ _ (reducesOkB_dictMerge _ _ hrD hrM) hrY)
      hnD hnM hnY k hk]
    simp [hkY, hwY, Option.or, Except.toOption]
  · intro r report ax T C D M k vM wM hT hD hC hCd hCy hrD hrM hnD hnM hk
      hkM hwM
    rw [get_sink_from_strict_resolved r report ax T D M [] hT hD
      (scopeLookup_sub_absent T C report.group_name report.end_of_year hC hCy)
      (scopeLookup_found T C report.group_name "default" _ hC hCd)
      (reducesOkB_dictMerge _ _ (reducesOkB_dictMerge _ _ hrD hrM) rfl)
      hnD hnM (by simp) k hk]
    simp [hkM, hwM, Option.or, Except.toOption]
  · intro r report ax T C D M Y k vM wM hT hD hC hCd hCy hrD hrM hrY hnD hnM
      hnY hk hkY hkM hwM
    rw [get_sink_from_strict_resolved r report ax T D M Y hT hD
      (scopeLookup_found T C report.group_name report.end_of_year _ hC hCy)
      (scopeLookup_found T C report.group_name "default" _ hC hCd)
      (reducesOkB_dictMerge _ _ (reducesOkB_dictMerge _ _ hrD hrM) hrY)
      hnD hnM hnY k hk]
    simp [hkY, hkM, hwM, Option.or, Except.toOption]
  · intro r report ax T D k vD wD hT hD hC hrD hnD hk hkD hwD
    rw [get_sink_from_strict_resolved r report ax T D [] [] hT hD
      (scopeLookup_absent T report.group_name report.end_of_year hC)
      (scopeLookup_absent T report.group_name "default" hC)
      (reducesOkB_dictMerge _ _ (reducesOkB_dictMerge _ _ hrD rfl) rfl)
      hnD (by simp) (by simp) k hk]
    simp [hkD, hwD, Option.or, Except.toOption]
  · intro r report ax T C D M Y k vD wD hT hD hC hCd hCy hrD hrM hrY hnD hnM
      hnY hk hkY hkM hkD hwD
    rw [get_sink_from_strict_resolved r report ax T D M Y hT hD
      (scopeLookup_found T C report.group_name report.end_of_year _ hC hCy)
      (scopeLookup_found T C report.group_name "default" _ hC hCd)
      (reducesOkB_dictMerge _ _ (reducesOkB_dictMerge _ _ hrD hrM) hrY)
      hnD hnM hnY k hk]
    simp [hkY, hkM, hkD, hwD, Option.or, Except.toOption]

/-- Witness for C1: the three override tiers evaluated on concrete rule
books — key present in all three scopes resolves to the company-year sink;
with the year sub-scope removed it falls back to the company-default sink;
with the whole company scope removed it falls back to the global sink. -/
theorem C1_override_precedence_witness :
    get_sink_from_strict exRules exReport "g" "c" = .ok (some (.str "ys")) ∧
    get_sink_from_strict exRules2 exReport "g" "c" = .ok (some (.str "ms")) ∧
    get_sink_from_strict exRules3 exReport "g" "c" = .ok (some (.str "gs")) :=
  ⟨C1_override_precedence.1 exRules exReport "c" exT exC exD exM exY "g"
      (.str "gs") (.obj [("sink", .str "ms"), ("justification", .str "jm")])
      (.str "ys") (.str "ys")
      rfl rfl rfl rfl rfl rfl rfl rfl (by decide) (by decide) (by decide)
      rfl rfl rfl rfl rfl,
    C1_override_precedence.2.1 exRules2 exReport "c" exT2 exC2 exD exM "g"
      (.obj [("sink", .str "ms"), ("justification", .str "jm")]) (.str "ms")
      rfl rfl rfl rfl rfl rfl rfl (by decide) (by decide) rfl rfl rfl,
    C1_override_precedence.2.2.2.1 exRules3 exReport "c" exT3 exD "g"
      (.str "gs") (.str "gs")
      rfl rfl rfl rfl (by decide) rfl rfl rfl⟩

/-! ## Claim C2 -/

/-- C2: for every report, axis and query, `get_sink_from_regex` iterates the
resolved regex mapping in its preserved merge order — the keys of the merged
dict keep first-occurrence order across global, then company-default, then
company-year, and the regex mapping is the marked entries in that order with
the marker stripped — returning the sink of the first pattern that matches the
query (anchored at the start, no full match required) and `none` when no
pattern matches.  In particular, with regex rules registered in the order
`^A ↦ x`, `^AB ↦ y`, the query `ABC` yields `x` and never `y`, although both
patterns match. -/
theorem C2_regex_first_match_wins :
    (∀ (rules : List (String × Json)) (source : String),
      findFirstMatch rules source =
        (rules.find? (fun p => reMatch p.1 source)).map Prod.snd) ∧
    (∀ (r : Rules) (report : CbCReport) (source ax : String)
        (rules : List (String × Json)),
      getRules r ax "r" report = .ok rules →
      get_sink_from_regex r report source ax =
        .ok (findFirstMatch rules source)) ∧
    (∀ D M Y : List (String × Json),
      (M.map Prod.fst).Nodup → (Y.map Prod.fst).Nodup →
      (dictMerge (dictMerge D M) Y).map Prod.fst =
        (D.map Prod.fst ++
          (M.map Prod.fst).filter (fun k => k ∉ D.map Prod.fst)) ++
          (Y.map Prod.fst).filter (fun k =>
            k ∉ D.map Prod.fst ++
              (M.map Prod.fst).filter (fun k2 => k2 ∉ D.map Prod.fst))) ∧
    (∀ l : List (String × Json),
      (((l.filter (fun p => hasMarker p.1)).map
          (fun p => (stripMarker p.1, p.2))).map Prod.fst).Nodup →
      regexDictOf l =
        (l.filter (fun p => hasMarker p.1)).map
          (fun p => (stripMarker p.1, p.2))) ∧
    (reMatch "^A" "ABC" = true ∧ reMatch "^AB" "ABC" = true ∧
      get_sink_from_regex exRulesRx exReport "ABC" "c" =
        .ok (some (.str "x")) ∧
      get_sink_from_regex exRulesRx exReport "ZZZ" "c" = .ok none) := by
  refine ⟨?_, ?_, ?_, ?_, ⟨rfl, rfl, rfl, rfl⟩⟩
  · intro rules source
    induction rules with
    | nil => rfl
    | cons p rest ih =>
      obtain ⟨pat, sink⟩ := p
      simp only [findFirstMatch, List.find?]
      cases h : reMatch pat source <;> simp [h, ih]
  · intro r report source ax rules h
    unfold get_sink_from_regex
    rw [h]
  · intro D M Y hnM hnY
    rw [keys_dictMerge _ _ hnY, keys_dictMerge _ _ hnM]
  · intro l h
    exact dictFromPairs_of_nodup _ h

/-- Witness for C2: the lookup on the concrete two-rule book equals the
first-match scan of the resolved mapping, and the resolved regex mapping of a
concrete merged dict is its marked entries with the marker stripped, in
order. -/
theorem C2_regex_first_match_wins_witness :
    get_sink_from_regex exRulesRx exReport "ABC" "c" =
      .ok (findFirstMatch [("^A", .str "x"), ("^AB", .str "y")] "ABC") ∧
    regexDictOf [("_regex_^A", Json.str "x"), ("_regex_^AB", Json.str "y")] =
      [("^A", Json.str "x"), ("^AB", Json.str "y")] :=
  ⟨C2_regex_first_match_wins.2.1 exRulesRx exReport "ABC" "c"
      [("^A", .str "x"), ("^AB", .str "y")] rfl,
    (C2_regex_first_match_wins.2.2.2.1
      [("_regex_^A", Json.str "x"), ("_regex_^AB", Json.str "y")]
      (by decide)).trans rfl⟩

/-! ## Claim C3 -/

/-- C3: during resolution a merged source key is classified as a regex rule
exactly when it contains the marker substring `_regex_`; every regex-classified
key appears in the regex partition with the marker stripped (for a key in the
canonical `_regex_<body>` form, the pattern body is retained verbatim); every
unmarked key appears unchanged — with its value — in the strict partition;
every strict-partition key is unmarked and every regex-partition key arises
from a marked key, so no merged key lands in both partitions. -/
theorem C3_marker_partition :
    (∀ k : String, hasMarker k = true ↔
      ∃ u v, k.data = u ++ regexMarker ++ v) ∧
    (∀ body : String, (∀ c ∈ body.data, c ≠ '\n') →
      stripMarker (String.mk (regexMarker ++ body.data)) = body) ∧
    (∀ (l : List (String × Json)) (p : String × Json), p ∈ l →
      hasMarker p.1 = true →
      stripMarker p.1 ∈ (regexDictOf l).map Prod.fst) ∧
    (∀ (l : List (String × Json)) (p : String × Json), p ∈ l →
      hasMarker p.1 = false → (l.map Prod.fst).Nodup →
      List.lookup p.1 (strictPart l) = some p.2) ∧
    (∀ (l : List (String × Json)) (k : String),
      k ∈ (strictPart l).map Prod.fst → hasMarker k = false) ∧
    (∀ (l : List (String × Json)) (k' : String),
      k' ∈ (regexDictOf l).map Prod.fst →
      ∃ p ∈ l, hasMarker p.1 = true ∧ stripMarker p.1 = k') := by
  refine ⟨?_, ?_, ?_, ?_, ?_, ?_⟩
  · intro k
    unfold hasMarker
    rw [afterFirst_isSome_iff]
  · intro body h
    unfold stripMarker
    have hpre : regexMarker.isPrefixOf (regexMarker ++ body.data) = true :=
      List.isPrefixOf_iff_prefix.mpr ⟨body.data, rfl⟩
    have hstep : afterFirst regexMarker
        (String.mk (regexMarker ++ body.data)).data = some body.data := by
      show afterFirst regexMarker (regexMarker ++ body.data) = some body.data
      rw [afterFirst_of_startsWith _ _ hpre, List.drop_left]
    rw [hstep]
    dsimp only
    rw [takeWhile_all _ _ (fun c hc => decide_eq_true (h c hc))]
  · intro l p hp hmark
    unfold regexDictOf
    rw [mem_keys_dictFromPairs]
    exact List.mem_map_of_mem Prod.fst
      (List.mem_map_of_mem _ (List.mem_filter.mpr ⟨hp, by simp [hmark]⟩))
  · intro l p hp hmark hn
    rw [lookup_strictPart l p.1 hn hmark]
    exact lookup_eq_of_mem_nodup l p hp hn
  · intro l k hk
    unfold strictPart at hk
    rw [mem_keys_dictFromPairs] at hk
    obtain ⟨p, hp, hpk⟩ := List.mem_map.mp hk
    have := (List.mem_filter.mp hp).2
    subst hpk
    simpa using this
  · intro l k' hk'
    unfold regexDictOf at hk'
    rw [mem_keys_dictFromPairs] at hk'
    obtain ⟨q, hq, hqk⟩ := List.mem_map.mp hk'
    obtain ⟨p, hp, hpq⟩ := List.mem_map.mp hq
    refine ⟨p, (List.mem_filter.mp hp).1, by
      simpa using (List.mem_filter.mp hp).2, ?_⟩
    rw [← hqk, ← hpq]

/-- Witness for C3: on a concrete merged mapping, the marked key is classified
regex and lands (stripped) in the regex partition, the unmarked key keeps its
value in the strict partition, and stripping the canonical marker form of a
concrete body returns the body. -/
theorem C3_marker_partition_witness :
    (∃ u v, "_regex_^B".data = u ++ regexMarker ++ v) ∧
    stripMarker (String.mk (regexMarker ++ "^B".data)) = "^B" ∧
    stripMarker "_regex_^B" ∈ (regexDictOf exPart).map Prod.fst ∧
    List.lookup "X" (strictPart exPart) = some (.str "a") :=
  ⟨(C3_marker_partition.1 "_regex_^B").mp rfl,
    C3_marker_partition.2.1 "^B" (by decide),
    C3_marker_partition.2.2.1 exPart ("_regex_^B", .str "b")
      (List.mem_cons_of_mem _ (List.mem_cons_self _ _)) rfl,
    C3_marker_partition.2.2.2.1 exPart ("X", .str "a")
      (List.mem_cons_self _ _) rfl (by decide)⟩

/-! ## Claim C6 -/

/-- C6: rule-book loading raises a `RulesError` when the given source is
neither valid inline JSON nor a locatable file path, and raises a `RulesError`
when the successfully parsed top-level object lacks the `column_rules` or the
`jurisdiction_rules` key; on such failures no `Rules` value is produced, and
on success both axis trees are present (as the `column` and `jurisdiction`
fields of the constructed object). -/
theorem C6_loader_errors :
    (rulesInit .notFound = .error .rulesFileNotFound ∧
      PyExc.rulesFileNotFound.isRulesError = true ∧
      PyExc.rulesMalformed.isRulesError = true) ∧
    (∀ fs : List (String × Json),
      List.lookup "column_rules" fs = none →
      rulesInit (.inline (.obj fs)) = .error .rulesMalformed ∧
      rulesInit (.file (.obj fs)) = .error .rulesMalformed) ∧
    (∀ (fs : List (String × Json)) (col : Json),
      List.lookup "column_rules" fs = some col →
      List.lookup "jurisdiction_rules" fs = none →
      rulesInit (.inline (.obj fs)) = .error .rulesMalformed ∧
      rulesInit (.file (.obj fs)) = .error .rulesMalformed) ∧
    (∀ (fs : List (String × Json)) (col jur : Json),
      List.lookup "column_rules" fs = some col →
      List.lookup "jurisdiction_rules" fs = some jur →
      rulesInit (.inline (.obj fs)) = .ok ⟨fs, col, jur⟩ ∧
      rulesInit (.file (.obj fs)) = .ok ⟨fs, col, jur⟩) := by
  refine ⟨⟨rfl, rfl, rfl⟩, ?_, ?_, ?_⟩
  · intro fs h
    constructor <;> simp [rulesInit, rulesOfDoc, h]
  · intro fs col h1 h2
    constructor <;> simp [rulesInit, rulesOfDoc, h1, h2]
  · intro fs col jur h1 h2
    constructor <;> simp [rulesInit, rulesOfDoc, h1, h2]

/-- Witness for C6: concrete malformed documents are rejected with the
malformed-configuration error and a concrete well-formed document loads with
both axis trees. -/
theorem C6_loader_errors_witness :
    rulesInit (.inline (.obj [("jurisdiction_rules", exJur)])) =
      .error .rulesMalformed ∧
    rulesInit (.inline (.obj [("column_rules", .obj exT)])) =
      .error .rulesMalformed ∧
    rulesInit (.inline (.obj [("column_rules", .obj exT),
      ("jurisdiction_rules", exJur)])) =
      .ok ⟨[("column_rules", .obj exT), ("jurisdiction_rules", exJur)],
        .obj exT, exJur⟩ :=
  ⟨(C6_loader_errors.2.1 [("jurisdiction_rules", exJur)] rfl).1,
    (C6_loader_errors.2.2.1 [("column_rules", .obj exT)] (.obj exT)
      rfl rfl).1,
    (C6_loader_errors.2.2.2 [("column_rules", .obj exT),
      ("jurisdiction_rules", exJur)] (.obj exT) exJur rfl rfl).1⟩

/-! ## Claim C10 -/

/-- C10: the read-only operations `get_sink_from_strict`,
`get_sink_from_regex`, `get_std_colnames_from_rules` and
`export_justifications_to_csv` leave the rule book unchanged: for every
report, axis and query, the `Rules` object observable after the call equals
the one before it (resolution merges into a fresh mapping and reduces values
there, never in the stored trees). -/
theorem C10_read_only_frame :
    (∀ (r : Rules) (report : CbCReport) (source ax : String),
      (get_sink_from_strictS r report source ax).2 = r) ∧
    (∀ (r : Rules) (report : CbCReport) (source ax : String),
      (get_sink_from_regexS r report source ax).2 = r) ∧
    (∀ r : Rules, (get_std_colnames_from_rulesS r).2 = r) ∧
    (∀ r : Rules, (export_justificationsS r).2 = r) :=
  ⟨fun _ _ _ _ => rfl, fun _ _ _ _ => rfl, fun _ => rfl, fun _ => rfl⟩

/-! ## Claim C5 -/

/-- C5: for every report, axis, unmarked source key, sink and justification,
writing the rule in company-year mode (creating the company and/or year
sub-scope when absent) and immediately reading the same source back through
`get_sink_from_strict` — without reloading — yields exactly that sink: the
stored RuleEntry object is reduced to its `sink` field by resolution.  The
three conjuncts cover a book where the company and its year sub-scope exist,
one where the year sub-scope is missing, and one where the whole company
scope is missing. -/
theorem C5_write_round_trip :
    (∀ (r : Rules) (report : CbCReport)
        (ax source sink justification : String)
        (T C D M Y : List (String × Json)),
      (if ax = "c" then r.column else r.jurisdiction) = .obj T →
      report.group_name ≠ "default" → report.end_of_year ≠ "default" →
      List.lookup "default" T = some (.obj D) →
      List.lookup report.group_name T = some (.obj C) →
      List.lookup "default" C = some (.obj M) →
      List.lookup report.end_of_year C = some (.obj Y) →
      reducesOkB D = true → reducesOkB M = true → reducesOkB Y = true →
      (D.map Prod.fst).Nodup → (M.map Prod.fst).Nodup →
      (Y.map Prod.fst).Nodup → hasMarker source = false →
      writeThenGet r report source "." sink justification ax =
        .ok (some (.str sink))) ∧
    (∀ (r : Rules) (report : CbCReport)
        (ax source sink justification : String)
        (T C D M : List (String × Json)),
      (if ax = "c" then r.column else r.jurisdiction) = .obj T →
      report.group_name ≠ "default" → report.end_of_year ≠ "default" →
      List.lookup "default" T = some (.obj D) →
      List.lookup report.group_name T = some (.obj C) →
      List.lookup "default" C = some (.obj M) →
      List.lookup report.end_of_year C = none →
      reducesOkB D = true → reducesOkB M = true →
      (D.map Prod.fst).Nodup → (M.map Prod.fst).Nodup →
      hasMarker source = false →
      writeThenGet r report source "." sink justification ax =
        .ok (some (.str sink))) ∧
    (∀ (r : Rules) (report : CbCReport)
        (ax source sink justification : String)
        (T D : List (String × Json)),
      (if ax = "c" then r.column else r.jurisdiction) = .obj T →
      report.group_name ≠ "default" → report.end_of_year ≠ "default" →
      List.lookup "default" T = some (.obj D) →
      List.lookup report.group_name T = none →
      reducesOkB D = true → (D.map Prod.fst).Nodup →
      hasMarker source = false →
      writeThenGet r report source "." sink justification ax =
        .ok (some (.str sink))) := by
  refine ⟨?_, ?_, ?_⟩
  · intro r report ax source sink justification T C D M Y hT hmnc hyear hD hC
      hCd hCy hrD hrM hrY hnD hnM hnY hks
    have hw := write_new_rule_company_year r report ax source sink
      justification T _ hT
      (by rw [setNested2_found T C Y report.group_name report.end_of_year
          source (rulePair sink justification) hC hCy, tryKeyErrWith_ok])
    unfold writeThenGet
    rw [hw]
    dsimp only
    have hT' := setAxis_select r ax (.obj (dictInsert T report.group_name
      (.obj (dictInsert C report.end_of_year
        (.obj (dictInsert Y source (rulePair sink justification)))))))
    rw [get_sink_from_strict_resolved _ report ax _ D M
      (dictInsert Y source (rulePair sink justification)) hT'
      (by rw [lookup_dictInsert_ne _ _ _ _ (fun he => hmnc he.symm)]; exact hD)
      (scopeLookup_found _ _ _ _ _ (lookup_dictInsert_self _ _ _)
        (lookup_dictInsert_self _ _ _))
      (scopeLookup_found _ _ _ _ _ (lookup_dictInsert_self _ _ _)
        (by rw [lookup_dictInsert_ne _ _ _ _ (fun he => hyear he.symm)]
            exact hCd))
      (reducesOkB_dictMerge _ _ (reducesOkB_dictMerge _ _ hrD hrM)
        (reducesOkB_dictInsert Y source _ hrY rfl))
      hnD hnM (nodup_keys_dictInsert Y source _ hnY) source hks]
    rw [lookup_dictInsert_self Y source (rulePair sink justification)]
    rfl
  · intro r report ax source sink justification T C D M hT hmnc hyear hD hC
      hCd hCy hrD hrM hnD hnM hks
    have hw := write_new_rule_company_year r report ax source sink
      justification T _ hT
      (by rw [setNested2_sub_absent T C report.group_name report.end_of_year
          source (rulePair sink justification) hC hCy, tryKeyErrWith_keyError,
          setNested1_found T C report.group_name report.end_of_year
            (.obj [(source, rulePair sink justification)]) hC,
          tryKeyErrWith_ok])
    unfold writeThenGet
    rw [hw]
    dsimp only
    have hT' := setAxis_select r ax (.obj (dictInsert T report.group_name
      (.obj (dictInsert C report.end_of_year
        (.obj [(source, rulePair sink justification)])))))
    rw [get_sink_from_strict_resolved _ report ax _ D M
      [(source, rulePair sink justification)] hT'
      (by rw [lookup_dictInsert_ne _ _ _ _ (fun he => hmnc he.symm)]; exact hD)
      (scopeLookup_found _ _ _ _ _ (lookup_dictInsert_self _ _ _)
        (lookup_dictInsert_self _ _ _))
      (scopeLookup_found _ _ _ _ _ (lookup_dictInsert_self _ _ _)
        (by rw [lookup_dictInsert_ne _ _ _ _ (fun he => hyear he.symm)]
            exact hCd))
      (reducesOkB_dictMerge _ _ (reducesOkB_dictMerge _ _ hrD hrM) rfl)
      hnD hnM (by simp) source hks]
    rw [lookup_cons_eq, if_pos rfl]
    rfl
  · intro r report ax source sink justification T D hT hmnc hyear hD hC hrD
      hnD hks
    have hw := write_new_rule_company_year r report ax source sink
      justification T _ hT
      (by rw [setNested2_absent T report.group_name report.end_of_year source
          (rulePair sink justification) hC, tryKeyErrWith_keyError,
          setNested1_absent T report.group_name report.end_of_year
            (.obj [(source, rulePair sink justification)]) hC,
          tryKeyErrWith_keyError]
          rfl)
    unfold writeThenGet
    rw [hw]
    dsimp only
    have hT' := setAxis_select r ax (.obj (dictInsert T report.group_name
      (.obj [(report.end_of_year,
        .obj [(source, rulePair sink justification)])])))
    rw [get_sink_from_strict_resolved _ report ax _ D []
      [(source, rulePair sink justification)] hT'
      (by rw [lookup_dictInsert_ne _ _ _ _ (fun he => hmnc he.symm)]; exact hD)
      (scopeLookup_found _ _ _ _ _ (lookup_dictInsert_self _ _ _)
        (by rw [lookup_cons_eq, if_pos rfl]))
      (scopeLookup_sub_absent _ _ _ _ (lookup_dictInsert_self _ _ _)
        (by rw [lookup_cons_eq, if_neg (fun he => hyear he.symm)]; rfl))
      (reducesOkB_dictMerge _ _ (reducesOkB_dictMerge _ _ hrD rfl) rfl)
      hnD (by simp) (by simp) source hks]
    rw [lookup_cons_eq, if_pos rfl]
    rfl

/-- Witness for C5: on the concrete example book, writing `Foo ↦ bar` in
company-year mode and immediately reading `Foo` strictly returns `bar`; the
same holds on the book lacking the year sub-scope and on the book lacking the
company scope. -/
theorem C5_write_round_trip_witness :
    writeThenGet exRules exReport "Foo" "." "bar" "j1" "c" =
      .ok (some (.str "bar")) ∧
    writeThenGet exRules2 exReport "Foo" "." "bar" "j1" "c" =
      .ok (some (.str "bar")) ∧
    writeThenGet exRules3 exReport "Foo" "." "bar" "j1" "c" =
      .ok (some (.str "bar")) :=
  ⟨C5_write_round_trip.1 exRules exReport "c" "Foo" "bar" "j1" exT exC exD
      exM exY rfl (by decide) (by decide) rfl rfl rfl rfl rfl rfl rfl
      (by decide) (by decide) (by decide) rfl,
    C5_write_round_trip.2.1 exRules2 exReport "c" "Foo" "bar" "j1" exT2 exC2
      exD exM rfl (by decide) (by decide) rfl rfl rfl rfl rfl rfl
      (by decide) (by decide) rfl,
    C5_write_round_trip.2.2 exRules3 exReport "c" "Foo" "bar" "j1" exT3 exD
      rfl (by decide) (by decide) rfl rfl rfl (by decide) rfl⟩

/-! ## Lemmas: the export traversal on conforming books -/

theorem extractFields_leaves (rules : List (String × RuleLeaf))
    (keys : List String) :
    extractFields (rules.map (fun p => (p.1, leafJson p.2))) keys 3 =
      .ok (rules.map (fun p =>
        csvRecord (keys ++ [p.1]) p.2.sink p.2.justification)) := by
  induction rules with
  | nil => simp [extractFields]
  | cons p rest ih =>
    obtain ⟨k, e⟩ := p
    simp only [leafJson] at ih
    simp [extractFields, leafJson, Json.getItem, List.lookup, ih, pyStr,
      bind_ok]

theorem extractFields_default_scope (rules : List (String × RuleLeaf))
    (keys : List String) :
    extractFields (rules.map (fun p => (p.1, leafJson p.2))) keys 2 =
      .ok [] := by
  induction rules with
  | nil => simp [extractFields]
  | cons p rest ih =>
    obtain ⟨k, e⟩ := p
    simp only [leafJson] at ih
    simp [extractFields, leafJson, ih, bind_ok]

theorem extractFields_company_scopes
    (scopes : List (String × List (String × RuleLeaf))) (keys : List String) :
    extractFields (scopes.map (fun sc => (sc.1, ruleMapJson sc.2))) keys 2 =
      .ok (scopes.flatMap (fun sc => sc.2.map (fun p =>
        csvRecord (keys ++ [sc.1, p.1]) p.2.sink p.2.justification))) := by
  induction scopes with
  | nil => simp [extractFields]
  | cons sc rest ih =>
    obtain ⟨sname, rules⟩ := sc
    simp only [ruleMapJson] at ih
    simp [extractFields, ruleMapJson, extractFields_leaves, ih, bind_ok]

theorem extractFields_companies
    (comps : List (String × List (String × List (String × RuleLeaf))))
    (keys : List String) :
    extractFields (comps.map (fun c =>
        (c.1, .obj (c.2.map (fun sc => (sc.1, ruleMapJson sc.2)))))) keys 1 =
      .ok (comps.flatMap (fun c => c.2.flatMap (fun sc => sc.2.map (fun p =>
        csvRecord (keys ++ [c.1, sc.1, p.1]) p.2.sink p.2.justification)))) := by
  induction comps with
  | nil => simp [extractFields]
  | cons c rest ih =>
    obtain ⟨cname, scopes⟩ := c
    simp [extractFields, extractFields_company_scopes, ih, bind_ok]

theorem extractFields_axis_level1 (a : AxisData) (keys : List String) :
    extractFields (("default", ruleMapJson a.defaultRules) ::
        a.companies.map (fun c =>
          (c.1, .obj (c.2.map (fun sc => (sc.1, ruleMapJson sc.2)))))) keys 1 =
      .ok (a.companies.flatMap (fun c => c.2.flatMap (fun sc =>
        sc.2.map (fun p =>
          csvRecord (keys ++ [c.1, sc.1, p.1]) p.2.sink p.2.justification)))) := by
  rw [show ruleMapJson a.defaultRules =
    Json.obj (a.defaultRules.map (fun p => (p.1, leafJson p.2))) from rfl]
  simp [extractFields, extractFields_default_scope, extractFields_companies,
    bind_ok]

theorem extractFields_axes (axes : List (String × AxisData))
    (keys : List String) :
    extractFields (axes.map (fun ax => (ax.1, axisJson ax.2))) keys 0 =
      .ok (axes.flatMap (fun ax =>
        ax.2.companies.flatMap (fun c => c.2.flatMap (fun sc =>
          sc.2.map (fun p =>
            csvRecord (keys ++ [ax.1, c.1, sc.1, p.1])
              p.2.sink p.2.justification))))) := by
  induction axes with
  | nil => simp [extractFields]
  | cons ax rest ih =>
    obtain ⟨aname, a⟩ := ax
    simp only [List.map_cons]
    rw [show axisJson a = Json.obj (("default", ruleMapJson a.defaultRules) ::
      a.companies.map (fun c =>
        (c.1, .obj (c.2.map (fun sc => (sc.1, ruleMapJson sc.2))))))
      from rfl]
    simp [extractFields, extractFields_axis_level1, ih, bind_ok]

/-! ## Claim C4 -/

/-- C4 counterexample: a rule book conforming to the data-model shape that
holds a leaf RuleEntry directly under the column axis's global `default`
scope (`gkey ↦ s1`, justification `j1`) and one under a company sub-scope.
The export emits exactly one record — the company one — and no emitted record
mentions the global-default entry's key or justification, so the claim's
"exactly one CSV record per leaf RuleEntry ... including RuleEntries stored
directly under an axis's global default scope" fails at this input. -/
theorem C4_counterexample :
    extractFields egAllC4 [] 0 =
      .ok ["column_rules,Comp,default,csrc,s2,\"j2\""] ∧
    ((Json.obj egAllC4).getItem "column_rules" >>= fun t =>
      t.getItem "default" >>= fun d => d.getItem "gkey") =
      .ok (.obj [("sink", .str "s1"), ("justification", .str "j1")]) ∧
    (afterFirst "gkey".data
      "column_rules,Comp,default,csrc,s2,\"j2\"".data).isSome = false ∧
    (afterFirst "j1".data
      "column_rules,Comp,default,csrc,s2,\"j2\"".data).isSome = false :=
  ⟨extractFields_axes axesC4 [], rfl, by decide, by decide⟩

/-! ## Lemmas: characters of `neatify` -/

theorem charToLower_eq_lt (c : Char) (h : c.toLower = '<') : c = '<' := by
  rw [Char.toLower] at h
  split at h
  · rename_i hc
    exfalso
    obtain ⟨m, hm⟩ : ∃ m, c.toNat = m := ⟨_, rfl⟩
    rw [hm] at h hc
    obtain ⟨h1, h2⟩ := hc
    interval_cases m <;> exact absurd h (by decide)
  · exact h

theorem splitOnP_chars {α : Type} (p : α → Bool) (l : List α)
    (w : List α) (hw : w ∈ l.splitOnP p) (c : α) (hc : c ∈ w) : c ∈ l := by
  induction l generalizing w with
  | nil =>
    rw [List.splitOnP_nil] at hw
    rw [List.mem_singleton] at hw
    subst hw
    cases hc
  | cons a rest ih =>
    rw [List.splitOnP_cons] at hw
    by_cases hpa : p a = true
    · rw [if_pos hpa] at hw
      rcases List.mem_cons.mp hw with h | h
      · subst h; cases hc
      · exact List.mem_cons_of_mem a (ih w h hc)
    · rw [if_neg hpa] at hw
      rcases hsp : rest.splitOnP p with _ | ⟨w0, ws⟩
      · exact absurd hsp (List.splitOnP_ne_nil p rest)
      · rw [hsp] at hw
        simp only [List.modifyHead] at hw
        rcases List.mem_cons.mp hw with h | h
        · subst h
          rcases List.mem_cons.mp hc with h2 | h2
          · exact h2 ▸ List.mem_cons_self a rest
          · exact List.mem_cons_of_mem a
              (ih w0 (hsp ▸ List.mem_cons_self w0 ws) h2)
        · exact List.mem_cons_of_mem a (ih w (hsp ▸ List.mem_cons_of_mem w0 h) hc)

theorem joinWords_chars (ws : List (List Char)) (c : Char)
    (hc : c ∈ joinWords ws) : c = ' ' ∨ ∃ w ∈ ws, c ∈ w := by
  induction ws with
  | nil => cases hc
  | cons w rest ih =>
    cases rest with
    | nil =>
      right
      exact ⟨w, List.mem_singleton_self w, hc⟩
    | cons w2 rest2 =>
      rw [show joinWords (w :: w2 :: rest2) =
        w ++ ' ' :: joinWords (w2 :: rest2) from rfl] at hc
      rcases List.mem_append.mp hc with h | h
      · exact Or.inr ⟨w, List.mem_cons_self _ _, h⟩
      · rcases List.mem_cons.mp h with h2 | h2
        · exact Or.inl h2
        · rcases ih h2 with h3 | ⟨w', hw', hcw'⟩
          · exact Or.inl h3
          · exact Or.inr ⟨w', List.mem_cons_of_mem w hw', hcw'⟩

theorem standAloneSub_chars (s : List Char) (c : Char)
    (hc : c ∈ standAloneSub s) : c ∈ s ∨ c = ' ' := by
  induction s with
  | nil => cases hc
  | cons a rest ih =>
    unfold standAloneSub at hc
    split at hc
    · rw [List.mem_singleton] at hc
      exact Or.inr hc
    · rcases List.mem_cons.mp hc with h | h
      · exact Or.inl (h ▸ List.mem_cons_self a rest)
      · rcases ih h with h2 | h2
        · exact Or.inl (List.mem_cons_of_mem a h2)
        · exact Or.inr h2

theorem neatify_no_lt (z : String) : '<' ∉ (neatify z).data := by
  intro hmem
  unfold neatify at hmem
  rw [show (String.mk ((joinWords ((standAloneSub
      (z.data.map (fun c => if keptChar c then c else ' '))).splitOnP
        (fun c => c = ' ')|>.filter (fun w => w ≠ []))).map Char.toLower)).data
    = (joinWords ((standAloneSub
      (z.data.map (fun c => if keptChar c then c else ' '))).splitOnP
        (fun c => c = ' ')|>.filter (fun w => w ≠ []))).map Char.toLower
    from rfl] at hmem
  obtain ⟨c, hc, hlow⟩ := List.mem_map.mp hmem
  have hceq := charToLower_eq_lt c hlow
  subst hceq
  rcases joinWords_chars _ _ hc with h | ⟨w, hw, hcw⟩
  · exact absurd h (by decide)
  · have hsplit := (List.mem_filter.mp hw).1
    have hmemcol := splitOnP_chars _ _ w hsplit _ hcw
    rcases standAloneSub_chars _ _ hmemcol with h2 | h2
    · obtain ⟨c0, _, hc0⟩ := List.mem_map.mp h2
      by_cases hk : keptChar c0 = true
      · rw [if_pos hk] at hc0
        subst hc0
        exact absurd hk (by decide)
      · rw [if_neg hk] at hc0
        exact absurd hc0 (by decide)
    · exact absurd h2 (by decide)

theorem neatify_ne_empty_marker (z : String) : neatify z ≠ "<empty>" := by
  intro he
  apply neatify_no_lt z
  rw [he]
  decide

/-- C4 (amended): for every rule book conforming to the data-model shape, the
justification export emits exactly one CSV record per leaf RuleEntry stored
under a company sub-scope (depth axis → company → year-or-default → source),
across both axes, each record consisting of the ordered path of scope keys
traversed, the sink and the quoted justification; leaf RuleEntries stored
directly under an axis's global `default` scope sit one level shallower than
the traversal's fixed emission depth and silently produce no record. -/
theorem C4_export_company_leaves_only :
    (∀ axes : List (String × AxisData),
      extractFields (conformingBook axes) [] 0 = .ok (companyRecords axes)) ∧
    (∀ (axes : List (String × AxisData)) (col jur : Json),
      export_justifications ⟨conformingBook axes, col, jur⟩ =
        .ok (csvHeader ++ String.intercalate "\n" (companyRecords axes))) := by
  have h1 : ∀ axes : List (String × AxisData),
      extractFields (conformingBook axes) [] 0 = .ok (companyRecords axes) := by
    intro axes
    rw [conformingBook, extractFields_axes]
    simp [companyRecords]
  refine ⟨h1, ?_⟩
  intro axes col jur
  unfold export_justifications
  rw [show (Rules.mk (conformingBook axes) col jur).all =
    conformingBook axes from rfl, h1 axes]
  rfl

/-! ## Claim C7 -/

/-- C7: jurisdiction normalization maps the input `ITA` to `ITA` (the cleaned
text upper-cases to a valid alpha-3 code), maps `Italy` to `ITA` via the
reference name-to-code index, maps the empty input to the sentinel `<empty>`,
and maps a non-empty input that is not a valid code, has no reference-index
entry and no fuzzy-match hit to its cleaned (neatified) text itself — which
can never equal `<empty>`, so the empty-input case is always distinguished
from an unresolved non-empty input. -/
theorem C7_jurisdiction_normalization :
    (∀ ref : RefData, "ITA" ∈ ref.alpha3 →
      auto_jurisdiction_to_iso3166 ref "ITA" = "ITA") ∧
    (∀ ref : RefData, "ITALY" ∉ ref.alpha3 →
      List.lookup "italy" ref.countryToIso = some "ITA" →
      auto_jurisdiction_to_iso3166 ref "Italy" = "ITA") ∧
    (∀ ref : RefData, "" ∉ ref.alpha3 →
      List.lookup "" ref.countryToIso = none →
      auto_jurisdiction_to_iso3166 ref "" = "<empty>") ∧
    (∀ (ref : RefData) (z : String),
      neatify z ≠ "" →
      pyUpper (neatify z) ∉ ref.alpha3 →
      List.lookup (neatify z) ref.countryToIso = none →
      pyUpper z ∉ ref.alpha3 →
      my_search_fuzzy ref.catalog (neatify z) = .error .lookupError →
      auto_jurisdiction_to_iso3166 ref z = neatify z ∧
        neatify z ≠ "<empty>") := by
  refine ⟨?_, ?_, ?_, ?_⟩
  · intro ref h
    unfold auto_jurisdiction_to_iso3166
    rw [show neatify "ITA" = "ita" from rfl]
    dsimp only
    rw [show pyUpper "ita" = "ITA" from rfl]
    rw [if_pos h]
  · intro ref h1 h2
    unfold auto_jurisdiction_to_iso3166
    rw [show neatify "Italy" = "italy" from rfl]
    dsimp only
    rw [show pyUpper "italy" = "ITALY" from rfl]
    rw [if_neg h1]
    simp [pyDictGetD, h2]
  · intro ref h1 h2
    unfold auto_jurisdiction_to_iso3166
    rw [show neatify "" = "" from rfl]
    dsimp only
    rw [show pyUpper "" = "" from rfl]
    rw [if_neg h1]
    simp [pyDictGetD, h2]
  · intro ref z h1 h2 h3 h4 h5
    refine ⟨?_, neatify_ne_empty_marker z⟩
    unfold auto_jurisdiction_to_iso3166
    dsimp only
    rw [if_neg h2]
    simp only [pyDictGetD, h3, Option.getD_none]
    rw [h5]
    simp [h1]

/-- Witness for C7: the four normalization cases evaluated on a concrete
reference-data set. -/
theorem C7_jurisdiction_normalization_witness :
    auto_jurisdiction_to_iso3166 exRef "ITA" = "ITA" ∧
    auto_jurisdiction_to_iso3166 exRef "Italy" = "ITA" ∧
    auto_jurisdiction_to_iso3166 exRef "" = "<empty>" ∧
    auto_jurisdiction_to_iso3166 exRef "qzx" = neatify "qzx" :=
  ⟨C7_jurisdiction_normalization.1 exRef (by decide),
    C7_jurisdiction_normalization.2.1 exRef (by decide) rfl,
    C7_jurisdiction_normalization.2.2.1 exRef (by decide) rfl,
    (C7_jurisdiction_normalization.2.2.2 exRef "qzx" (by decide) (by decide)
      rfl (by decide) rfl).1⟩

/-! ## Lemmas: the orientation row scan -/

theorem scanRows_cons (ref : RefData) (report : CbCReport)
    (colNames : List String) (row : List String) (rest : List (List String)) :
    scanRows ref report colNames (row :: rest) =
      if report.min_nb_cols ≤ count_CbCR_terms (rowToString colNames row)
      then .ok false
      else if report.min_nb_jurs_per_table ≤ count_countries ref row
      then .ok true
      else scanRows ref report colNames rest := rfl

theorem scanRows_skip (ref : RefData) (report : CbCReport)
    (colNames : List String) (pre rest : List (List String))
    (h : ∀ r ∈ pre,
      count_CbCR_terms (rowToString colNames r) < report.min_nb_cols ∧
      count_countries ref r < report.min_nb_jurs_per_table) :
    scanRows ref report colNames (pre ++ rest) =
      scanRows ref report colNames rest := by
  induction pre with
  | nil => rfl
  | cons row pre2 ih =>
    have hr := h row (List.mem_cons_self _ _)
    rw [List.cons_append, scanRows_cons,
      if_neg (Nat.not_le.mpr hr.1), if_neg (Nat.not_le.mpr hr.2)]
    exact ih (fun r hrm => h r (List.mem_cons_of_mem _ hrm))

theorem scanRows_all_skip (ref : RefData) (report : CbCReport)
    (colNames : List String) (rows : List (List String))
    (h : ∀ r ∈ rows,
      count_CbCR_terms (rowToString colNames r) < report.min_nb_cols ∧
      count_countries ref r < report.min_nb_jurs_per_table) :
    scanRows ref report colNames rows = .error .valueError := by
  have := scanRows_skip ref report colNames rows [] h
  rw [List.append_nil] at this
  rw [this]
  rfl

/-! ## Claim C8 -/

/-- C8: the orientation classifier decides in a fixed order — a column with
at least `min_nb_jurs_per_table` jurisdiction-like cells yields not-transposed
before any row is examined; otherwise, among the rows in order, the first row
satisfying a threshold decides: at least `min_nb_cols` recognized CbC terms
yields not-transposed (checked first), at least `min_nb_jurs_per_table`
jurisdiction-like cells yields transposed; and a completed scan with no
column or row meeting either threshold raises the undecidable-orientation
error rather than returning a default. -/
theorem C8_orientation_classifier :
    (∀ (ref : RefData) (df : DF) (report : CbCReport),
      (∃ col ∈ df.cols,
        report.min_nb_jurs_per_table ≤ count_countries ref col) →
      is_transposed ref df report = .ok false) ∧
    (∀ (ref : RefData) (df : DF) (report : CbCReport)
        (pre post : List (List String)) (row : List String),
      (∀ col ∈ df.cols,
        count_countries ref col < report.min_nb_jurs_per_table) →
      df.cols.transpose = pre ++ row :: post →
      (∀ r ∈ pre,
        count_CbCR_terms (rowToString df.colNames r) < report.min_nb_cols ∧
        count_countries ref r < report.min_nb_jurs_per_table) →
      ((report.min_nb_cols ≤ count_CbCR_terms (rowToString df.colNames row) →
        is_transposed ref df report = .ok false) ∧
        (count_CbCR_terms (rowToString df.colNames row) < report.min_nb_cols →
         report.min_nb_jurs_per_table ≤ count_countries ref row →
         is_transposed ref df report = .ok true))) ∧
    (∀ (ref : RefData) (df : DF) (report : CbCReport),
      (∀ col ∈ df.cols,
        count_countries ref col < report.min_nb_jurs_per_table) →
      (∀ r ∈ df.cols.transpose,
        count_CbCR_terms (rowToString df.colNames r) < report.min_nb_cols ∧
        count_countries ref r < report.min_nb_jurs_per_table) →
      is_transposed ref df report = .error .valueError) := by
  refine ⟨?_, ?_, ?_⟩
  · intro ref df report h
    unfold is_transposed
    rw [if_pos]
    obtain ⟨col, hcol, hle⟩ := h
    exact List.any_eq_true.mpr ⟨col, hcol, by simpa using hle⟩
  · intro ref df report pre post row hcols htrans hpre
    have hany : df.cols.any (fun values =>
        report.min_nb_jurs_per_table ≤ count_countries ref values) = false := by
      rw [List.any_eq_false]
      intro col hcol
      simpa using Nat.not_le.mpr (hcols col hcol)
    constructor
    · intro hterms
      unfold is_transposed
      rw [hany]
      rw [if_neg (by simp)]
      rw [htrans, scanRows_skip ref report df.colNames pre _ hpre,
        scanRows_cons, if_pos hterms]
    · intro hterms hjurs
      unfold is_transposed
      rw [hany]
      rw [if_neg (by simp)]
      rw [htrans, scanRows_skip ref report df.colNames pre _ hpre,
        scanRows_cons, if_neg (Nat.not_le.mpr hterms), if_pos hjurs]
  · intro ref df report hcols hrows
    have hany : df.cols.any (fun values =>
        report.min_nb_jurs_per_table ≤ count_countries ref values) = false := by
      rw [List.any_eq_false]
      intro col hcol
      simpa using Nat.not_le.mpr (hcols col hcol)
    unfold is_transposed
    rw [hany]
    rw [if_neg (by simp)]
    exact scanRows_all_skip ref report df.colNames _ hrows

/-- Witness for C8: on concrete tables, a jurisdiction-rich column decides
not-transposed, a term-rich first row decides not-transposed, a
jurisdiction-rich first row decides transposed, and a featureless table
raises the undecidable error. -/
theorem C8_orientation_classifier_witness :
    is_transposed exRef exDF1 ⟨"MNC", "2020", 1, 1⟩ = .ok false ∧
    is_transposed exRef exDF2 exReportT = .ok false ∧
    is_transposed exRef exDF3 exReportT2 = .ok true ∧
    is_transposed exRef exDF4 ⟨"MNC", "2020", 1, 1⟩ = .error .valueError :=
  ⟨C8_orientation_classifier.1 exRef exDF1 ⟨"MNC", "2020", 1, 1⟩
      ⟨["Italy", "x"], by decide, by decide⟩,
    (C8_orientation_classifier.2.1 exRef exDF2 exReportT []
      [["Italy", "France"]] ["tax paid", "profit"] (by decide) (by decide)
      (by decide)).1 (by decide),
    (C8_orientation_classifier.2.1 exRef exDF3 exReportT2 []
      [["x", "y"]] ["Italy", "France"] (by decide) (by decide)
      (by decide)).2 (by decide) (by decide),
    C8_orientation_classifier.2.2 exRef exDF4 ⟨"MNC", "2020", 1, 1⟩
      (by decide) (by decide)⟩

/-! ## Lemmas: fuzzy score aggregation -/

instance : IsTotal (String × Nat) resultsBefore :=
  ⟨fun a b => by
    unfold resultsBefore
    rcases Nat.lt_trichotomy a.2 b.2 with h | h | h
    · exact Or.inr (Or.inl h)
    · rcases le_total a.1 b.1 with h2 | h2
      · exact Or.inl (Or.inr ⟨h, h2⟩)
      · exact Or.inr (Or.inr ⟨h.symm, h2⟩)
    · exact Or.inl (Or.inl h)⟩

instance : IsTrans (String × Nat) resultsBefore :=
  ⟨fun a b c hab hbc => by
    unfold resultsBefore at hab hbc ⊢
    rcases hab with h1 | ⟨h1, h1s⟩
    · rcases hbc with h2 | ⟨h2, h2s⟩
      · exact Or.inl (h2.trans h1)
      · exact Or.inl (h2 ▸ h1)
    · rcases hbc with h2 | ⟨h2, h2s⟩
      · exact Or.inl (h1 ▸ h2)
      · exact Or.inr ⟨h1.trans h2, h1s.trans h2s⟩⟩

theorem lookup_addResult_self (acc : List (String × Nat)) (code : String)
    (pts : Nat) :
    List.lookup code (addResult acc code pts) =
      some ((List.lookup code acc).getD 0 + pts) := by
  unfold addResult
  rcases h : List.lookup code acc with _ | old
  · rw [lookup_append_single acc code pts h]
    simp
  · rw [lookup_map_overwrite acc code (old + pts) (by rw [h]; rfl)]
    simp

theorem lookup_addResult_ne (acc : List (String × Nat)) (code : String)
    (pts : Nat) (k : String) (h : k ≠ code) :
    List.lookup k (addResult acc code pts) = List.lookup k acc := by
  unfold addResult
  rcases h2 : List.lookup code acc with _ | old
  · exact lookup_append_single_ne acc k code pts h
  · exact lookup_map_overwrite_ne acc k code (old + pts) h

theorem fieldBonus_pos (q : String) (fields : List (Option String)) (p : Nat)
    (h : fieldBonus q fields = some p) : 5 ≤ p := by
  induction fields with
  | nil => cases h
  | cons f rest ih =>
    cases f with
    | none => exact ih h
    | some v =>
      unfold fieldBonus at h
      dsimp only at h
      rcases h2 : firstOccurIdx q.data (removeAccents (pyLower v)).data
        with _ | idx <;> rw [h2] at h
      · exact ih h
      · cases h
        exact Nat.le_max_left 5 _

theorem scoreAll_lookup_not_mem (cs : List Country) (q : String)
    (acc : List (String × Nat)) (code : String)
    (h : code ∉ cs.map Country.alpha_3) :
    List.lookup code (scoreAll cs q acc) = List.lookup code acc := by
  induction cs generalizing acc with
  | nil => rfl
  | cons c rest ih =>
    simp only [List.map_cons, List.mem_cons] at h
    push_neg at h
    unfold scoreAll
    simp only [List.foldl_cons]
    rcases hb : fieldBonus q (countryFields c) with _ | pts <;>
      simp only [hb]
    · exact ih acc h.2
    · rw [show List.foldl _ (addResult acc c.alpha_3 pts) rest =
        scoreAll rest q (addResult acc c.alpha_3 pts) from rfl]
      rw [ih (addResult acc c.alpha_3 pts) h.2]
      exact lookup_addResult_ne acc c.alpha_3 pts code h.1

theorem scoreAll_lookup (cs : List Country) (q : String)
    (acc : List (String × Nat)) (c : Country) (hc : c ∈ cs)
    (hn : (cs.map Country.alpha_3).Nodup) :
    List.lookup c.alpha_3 (scoreAll cs q acc) =
      (match fieldBonus q (countryFields c) with
       | some p => some ((List.lookup c.alpha_3 acc).getD 0 + p)
       | none => List.lookup c.alpha_3 acc) := by
  induction cs generalizing acc with
  | nil => cases hc
  | cons c0 rest ih =>
    simp only [List.map_cons, List.nodup_cons] at hn
    rcases List.mem_cons.mp hc with he | hm
    · subst he
      unfold scoreAll
      simp only [List.foldl_cons]
      rcases hb : fieldBonus q (countryFields c) with _ | pts <;>
        simp only [hb]
      · exact scoreAll_lookup_not_mem rest q acc c.alpha_3 hn.1
      · rw [show List.foldl _ (addResult acc c.alpha_3 pts) rest =
          scoreAll rest q (addResult acc c.alpha_3 pts) from rfl]
        rw [scoreAll_lookup_not_mem rest q _ c.alpha_3 hn.1]
        exact lookup_addResult_self acc c.alpha_3 pts
    · have hne : c.alpha_3 ≠ c0.alpha_3 := by
        intro he
        exact hn.1 (he ▸ List.mem_map_of_mem Country.alpha_3 hm)
      unfold scoreAll
      simp only [List.foldl_cons]
      rcases hb : fieldBonus q (countryFields c0) with _ | pts <;>
        simp only [hb]
      · exact ih acc hm hn.2
      · rw [show List.foldl _ (addResult acc c0.alpha_3 pts) rest =
          scoreAll rest q (addResult acc c0.alpha_3 pts) from rfl]
        rw [ih (addResult acc c0.alpha_3 pts) hm hn.2]
        rcases fieldBonus q (countryFields c) with _ | p2
        · exact lookup_addResult_ne acc c0.alpha_3 pts c.alpha_3 hne
        · rw [lookup_addResult_ne acc c0.alpha_3 pts c.alpha_3 hne]

theorem scoreAll_all_none (cs : List Country) (q : String)
    (acc : List (String × Nat))
    (h : ∀ c ∈ cs, fieldBonus q (countryFields c) = none) :
    scoreAll cs q acc = acc := by
  induction cs with
  | nil => rfl
  | cons c rest ih =>
    unfold scoreAll
    simp only [List.foldl_cons, h c (List.mem_cons_self _ _)]
    exact ih (fun c2 h2 => h c2 (List.mem_cons_of_mem _ h2))

theorem fuzzyResults_lookup (cs : List Country) (q : String) (c : Country)
    (hc : c ∈ cs) (hn : (cs.map Country.alpha_3).Nodup) :
    List.lookup c.alpha_3 (fuzzyResults cs q) =
      if specScore cs q c = 0 then none else some (specScore cs q c) := by
  unfold fuzzyResults specScore
  rw [scoreAll_lookup cs q _ c hc hn]
  rcases hl : catalogLookup cs q with _ | c0 <;>
    rcases hb : fieldBonus q (countryFields c) with _ | pts
  · simp [hl, hb]
  · have hp := fieldBonus_pos q (countryFields c) pts hb
    simp only [hl, hb, List.lookup_nil, Option.getD_none, Option.getD_some]
    rw [if_neg (by simp; omega)]
    simp
  · by_cases he : c0 = c
    · subst he
      simp only [hl, hb]
      rw [lookup_addResult_self [] c0.alpha_3 50]
      simp
    · have hne : c.alpha_3 ≠ c0.alpha_3 := fun h2 =>
        he (List.inj_on_of_nodup_map hn (List.mem_of_find?_eq_some hl) hc
          h2.symm)
      simp only [hl, hb]
      rw [lookup_addResult_ne [] c0.alpha_3 50 c.alpha_3 hne]
      simp [he]
  · have hp := fieldBonus_pos q (countryFields c) pts hb
    by_cases he : c0 = c
    · subst he
      simp only [hl, hb, Option.getD_some]
      rw [lookup_addResult_self [] c0.alpha_3 50]
      rw [if_neg (by simp)]
      simp
    · have hne : c.alpha_3 ≠ c0.alpha_3 := fun h2 =>
        he (List.inj_on_of_nodup_map hn (List.mem_of_find?_eq_some hl) hc
          h2.symm)
      simp only [hl, hb, Option.getD_some]
      rw [lookup_addResult_ne [] c0.alpha_3 50 c.alpha_3 hne]
      simp only [List.lookup_nil, Option.getD_none]
      rw [if_neg (by
        intro h0
        rw [if_neg (show ¬(some c0 = some c) from by simp [he])] at h0
        omega)]
      simp [he]

theorem fuzzyResults_empty_iff (cs : List Country) (q : String)
    (hn : (cs.map Country.alpha_3).Nodup) :
    fuzzyResults cs q = [] ↔ ∀ c ∈ cs, specScore cs q c = 0 := by
  constructor
  · intro hemp c hc
    by_contra hne
    have := fuzzyResults_lookup cs q c hc hn
    rw [hemp, if_neg hne] at this
    exact absurd this (by simp)
  · intro h
    have hl : catalogLookup cs q = none := by
      rcases hl2 : catalogLookup cs q with _ | c0
      · rfl
      · exfalso
        have hc0 := List.mem_of_find?_eq_some hl2
        have := h c0 hc0
        unfold specScore at this
        rw [if_pos hl2] at this
        omega
    have hb : ∀ c ∈ cs, fieldBonus q (countryFields c) = none := by
      intro c hc
      rcases hb2 : fieldBonus q (countryFields c) with _ | pts
      · rfl
      · exfalso
        have hsc := h c hc
        unfold specScore at hsc
        rw [hb2] at hsc
        simp only [Option.getD_some] at hsc
        have hp5 := fieldBonus_pos q (countryFields c) pts hb2
        by_cases hific : catalogLookup cs q = some c
        · rw [if_pos hific] at hsc; omega
        · rw [if_neg hific] at hsc; omega
    unfold fuzzyResults
    rw [hl]
    exact scoreAll_all_none cs q [] hb

/-! ## Claim C9 -/

/-- C9: for every query whose processed form (stripped, lower-cased,
de-accented) is outside the continent special-case set, fuzzy country
matching scores each country as 50 for an exact lookup hit plus — for the
first of the fields name, official name, comment containing the query — the
positional bonus `max(5, 30 - 2 * position)` (always at least 5); the
aggregated score dict holds exactly the countries with a non-zero score; the
returned list is sorted by descending score with ascending country code as
tie-break (so results are deterministic for equal scores) and is a
permutation of the aggregated scores; and the not-found error is raised
exactly when no country scores at all. -/
theorem C9_fuzzy_scoring :
    (∀ (cs : List Country) (q : String),
      (cs.map Country.alpha_3).Nodup →
      ∀ c ∈ cs, List.lookup c.alpha_3 (fuzzyResults cs q) =
        if specScore cs q c = 0 then none else some (specScore cs q c)) ∧
    (∀ (q : String) (fields : List (Option String)) (p : Nat),
      fieldBonus q fields = some p → 5 ≤ p) ∧
    (∀ (cs : List Country) (query : String),
      ¬(removeAccents (pyLower (pyStrip query)) = "africa" ∨
        removeAccents (pyLower (pyStrip query)) = "america" ∨
        removeAccents (pyLower (pyStrip query)) = "europe") →
      (cs.map Country.alpha_3).Nodup →
      (my_search_fuzzy cs query = .error .lookupError ↔
        ∀ c ∈ cs,
          specScore cs (removeAccents (pyLower (pyStrip query))) c = 0)) ∧
    (∀ (cs : List Country) (query : String) (l : List (String × Nat)),
      ¬(removeAccents (pyLower (pyStrip query)) = "africa" ∨
        removeAccents (pyLower (pyStrip query)) = "america" ∨
        removeAccents (pyLower (pyStrip query)) = "europe") →
      my_search_fuzzy cs query = .ok l →
      l.Sorted resultsBefore ∧
        l.Perm (fuzzyResults cs (removeAccents (pyLower (pyStrip query))))) := by
  refine ⟨?_, ?_, ?_, ?_⟩
  · intro cs q hn c hc
    exact fuzzyResults_lookup cs q c hc hn
  · intro q fields p h
    exact fieldBonus_pos q fields p h
  · intro cs query hq hn
    unfold my_search_fuzzy
    dsimp only
    rw [if_neg hq]
    cases hres : (fuzzyResults cs
        (removeAccents (pyLower (pyStrip query)))).isEmpty
    · rw [if_neg (by simp)]
      constructor
      · intro hcontr
        exact absurd hcontr (by simp)
      · intro hall
        have := (fuzzyResults_empty_iff cs
          (removeAccents (pyLower (pyStrip query))) hn).mpr hall
        rw [this] at hres
        exact absurd hres (by simp)
    · rw [if_pos rfl]
      constructor
      · intro _
        exact (fuzzyResults_empty_iff cs
          (removeAccents (pyLower (pyStrip query))) hn).mp
          (List.isEmpty_iff.mp hres)
      · intro _
        rfl
  · intro cs query l hq hok
    unfold my_search_fuzzy at hok
    dsimp only at hok
    rw [if_neg hq] at hok
    cases hres : (fuzzyResults cs
        (removeAccents (pyLower (pyStrip query)))).isEmpty <;>
      rw [hres] at hok
    · rw [if_neg (by simp)] at hok
      cases hok
      exact ⟨List.sorted_insertionSort resultsBefore _,
        List.perm_insertionSort resultsBefore _⟩
    · rw [if_pos rfl] at hok
      cases hok

/-- Witness for C9: on the concrete two-country catalog, the aggregated score
of Italy for the query `italy` matches the specified formula (an exact hit
plus a position-0 name bonus), the gibberish query `qzx` raises the not-found
error, and the result list for `Italy` is sorted and is a permutation of the
aggregated scores. -/
theorem C9_fuzzy_scoring_witness :
    (List.lookup "ITA" (fuzzyResults exRef.catalog "italy") =
      if specScore exRef.catalog "italy"
          ⟨"ITA", some "Italy", some "Italian Republic", none⟩ = 0
      then none
      else some (specScore exRef.catalog "italy"
        ⟨"ITA", some "Italy", some "Italian Republic", none⟩)) ∧
    my_search_fuzzy exRef.catalog "qzx" = .error .lookupError ∧
    (([("ITA", 80)] : List (String × Nat)).Sorted resultsBefore ∧
      ([("ITA", 80)] : List (String × Nat)).Perm
        (fuzzyResults exRef.catalog
          (removeAccents (pyLower (pyStrip "Italy"))))) :=
  ⟨C9_fuzzy_scoring.1 exRef.catalog "italy" (by decide)
      ⟨"ITA", some "Italy", some "Italian Republic", none⟩ (by decide),
    (C9_fuzzy_scoring.2.2.1 exRef.catalog "qzx" (by decide)
      (by decide)).mpr (by decide),
    C9_fuzzy_scoring.2.2.2 exRef.catalog "Italy" [("ITA", 80)]
      (by decide) rfl⟩

end CbCR
